import Mathlib

/-!
# Ray tracer (Assignment 1, `main.cpp`): sphere intersection, Phong shading, nearest hit

Shallow embedding of `Sphere::intersect`, `PhongModel`, `trace_ray` and the
pixel-to-ray mapping of `main`, in two readings of the C++ type `float`.

## Exact reading

A `float` is an element of a linearly ordered field `F` (exact arithmetic: no
rounding, no overflow).  The two IEEE special values the program can produce from
finite inputs are kept explicit:

* NaN, produced by `std::sqrt` of a negative number and by `glm::normalize`
  of the zero vector (`0 * inversesqrt(0) = 0 * inf`), is `none` in an
  `Option`; every comparison with NaN is false;
* `INFINITY`, the sentinel assigned to `closest_t`, `t1`, `t2`, is `none` in
  the `Option F` that stands for such a variable.

The library functions `std::sqrt` (on non-negative arguments), `glm::pow` and
`std::tan` and the constant `M_PI` are parameters `sqrt`, `powf`, `tan` and `pi`
of the definitions; the theorems instantiate them with `Real.sqrt`, `Real.rpow`,
`Real.tan` and `Real.pi`.

This reading follows the control flow, the operand order and the NaN / `INFINITY`
comparisons of the source, and it is the program on inputs whose intermediate
values are all floats.  It does not round: `closestT`, `Sphere.intersect`,
`Sphere.fillHit`, `lightStep` and `pixelDirection` compute with exact numbers.

## Float reading

A `float` is a value of `Fl` (a finite rational, an infinity or NaN) and the
operations are the fields of an `Arith`.  `ieee` is IEEE 754 arithmetic: binary32
operations rounded to nearest, ties to even, with gradual underflow and overflow to
infinity, and binary64 for the `double` intermediate values of
`std::sqrt(std::pow(x, 2) - std::pow(y, 2))`.  Each expression is evaluated in the
precision of its C++ type, operation by operation, with no fused multiply-add.  The
sign of zero is not modelled; no comparison of the program depends on it.

`closestTF`, `Sphere.intersectF`, `Sphere.fillHitF`, `lightStepF`, `PhongModelF` and
`pixelDirectionF` are the same source functions in this reading.  Statements that
quantify over an `Arith` hold for every choice of the operations, so for `ieee`;
statements about `ieee` are evaluated on rationals.
-/

namespace RayTracer

/-- The type `glm::vec3`. -/
@[ext]
structure Vec3 (F : Type) where
  x : F
  y : F
  z : F

/-- Modelled from the spec: `Material.h` is not among the sources; the fields are
those `main.cpp` reads and writes (`ambient`, `diffuse`, `specular`, `shininess`). -/
structure Material (F : Type) where
  ambient : Vec3 F
  diffuse : Vec3 F
  specular : Vec3 F
  shininess : F

/-- Class `Ray`. -/
structure Ray (F : Type) where
  origin : Vec3 F
  direction : Vec3 F

/-- Class `Sphere` with the members it inherits from `Object`. -/
structure Sphere (F : Type) where
  color : Vec3 F
  material : Material F
  radius : F
  center : Vec3 F

/-- Class `Light`. -/
structure Light (F : Type) where
  position : Vec3 F
  color : Vec3 F

/-- Struct `Hit` once `hit.hit` is `true`.  `Sphere.intersect` returns an
`Option (Hit F)`: `none` is a `Hit` with `hit == false`, whose other fields the
source leaves unset.  `normal` is `none` when it is the NaN vector; `object` is
the sphere `this` points to. -/
structure Hit (F : Type) where
  normal : Option (Vec3 F)
  intersection : Vec3 F
  distance : F
  object : Sphere F

section Defs

variable {F : Type} [LinearOrderedField F]

/-- Constructor `glm::vec3(s)`. -/
def Vec3.splat (s : F) : Vec3 F := ⟨s, s, s⟩

/-- Operator `vec3 + vec3`. -/
def Vec3.add (u v : Vec3 F) : Vec3 F := ⟨u.x + v.x, u.y + v.y, u.z + v.z⟩

/-- Operator `vec3 - vec3`. -/
def Vec3.sub (u v : Vec3 F) : Vec3 F := ⟨u.x - v.x, u.y - v.y, u.z - v.z⟩

/-- Unary `-vec3`. -/
def Vec3.neg (v : Vec3 F) : Vec3 F := ⟨-v.x, -v.y, -v.z⟩

/-- Operator `vec3 * vec3` (component-wise). -/
def Vec3.mul (u v : Vec3 F) : Vec3 F := ⟨u.x * v.x, u.y * v.y, u.z * v.z⟩

/-- Operator `vec3 * float`. -/
def Vec3.scale (v : Vec3 F) (k : F) : Vec3 F := ⟨v.x * k, v.y * k, v.z * k⟩

/-- Operator `float * vec3`. -/
def Vec3.lscale (k : F) (v : Vec3 F) : Vec3 F := ⟨k * v.x, k * v.y, k * v.z⟩

/-- Function `glm::dot`. -/
def dot (u v : Vec3 F) : F := u.x * v.x + u.y * v.y + u.z * v.z

/-- Function `glm::length(v) = sqrt(dot(v, v))`. -/
def length (sqrt : F → F) (v : Vec3 F) : F := sqrt (dot v v)

/-- Function `glm::distance(p0, p1) = length(p1 - p0)`. -/
def distance (sqrt : F → F) (p0 p1 : Vec3 F) : F := length sqrt (p1.sub p0)

/-- Function `glm::normalize(v) = v * inversesqrt(dot(v, v))`; for the zero vector
this is `0 * inf`, the NaN vector (`none`). -/
def normalize (sqrt : F → F) (v : Vec3 F) : Option (Vec3 F) :=
  if dot v v = 0 then none else some (v.scale (1 / sqrt (dot v v)))

/-- Function `std::sqrt` on a finite argument: NaN (`none`) below zero. -/
def fsqrt (sqrt : F → F) (x : F) : Option F :=
  if x < 0 then none else some (sqrt x)

/-- Function `std::min(a, b) = (b < a) ? b : a` on values that are finite or
`INFINITY` (`none`). -/
def fmin : Option F → Option F → Option F
  | some a, some b => if b < a then some b else some a
  | some a, none => some a
  | none, some b => some b
  | none, none => none

/-- The value of `closest_t` in `Sphere::intersect` (`none` is `INFINITY`), from the
translated center, the ray direction and the radius.  Exact reading: `d`, `b`, `t1`,
`t2` are not rounded; `closestTF` is the same code with rounding. -/
def closestT (sqrt : F → F) (center direction : Vec3 F) (radius : F) : Option F :=
  let a := dot center direction
  match fsqrt sqrt ((length sqrt center) ^ 2 - a ^ 2) with
  | none => none -- `d` is NaN: `d == radius` and `d < radius` are false
  | some d =>
    if d = radius then
      some a
    else if d < radius then
      match fsqrt sqrt (radius ^ 2 - d ^ 2) with
      | none => none -- `b`, `t1`, `t2` are NaN: every test below is false
      | some b =>
        let t1 := a - b
        let t2 := a + b
        -- check if camera is not inside sphere
        if t1 < 0 ∧ 0 < t2 then
          none
        else
          let t1 : Option F := if t1 ≥ 0 then some t1 else none
          let t2 : Option F := if t2 ≥ 0 then some t2 else none
          fmin t1 t2
    else
      none

/-- The body of `if (closest_t != INFINITY)` in `Sphere::intersect`: the fields of
`hit` for the finite `closest_t`, read from the ray and the sphere (`this`) as they
are once the translation has been undone.  Exact reading: `intersection` and
`distance` are not rounded; `Sphere.fillHitF` is the same code with rounding. -/
def Sphere.fillHit (sqrt : F → F) (this : Sphere F) (ray : Ray F) (closest_t : F) : Hit F :=
  let intersection := ray.direction.scale closest_t
  -- Translate back intersection to old coordinate system
  let intersection := intersection.add ray.origin
  { intersection := intersection
    distance := distance sqrt ray.origin intersection
    normal := normalize sqrt (intersection.sub this.center)
    object := this }

/-- Method `Sphere::intersect`.  Returns the `Hit` (`none`: `hit.hit == false`)
and the sphere as the call leaves it (the member `center` is written twice).  Exact
reading: `center -= o; center += o` restores `center`; `Sphere.intersectF` is the
same code with rounding, where it need not. -/
def Sphere.intersect (sqrt : F → F) (self : Sphere F) (ray : Ray F) :
    Option (Hit F) × Sphere F :=
  -- Translate variables to new coordinate system
  let translationOffset := ray.origin
  let ray1 : Ray F := { ray with origin := ray.origin.sub translationOffset }
  let center1 := self.center.sub translationOffset
  let closest_t := closestT sqrt center1 ray1.direction self.radius
  -- Translate back object variables to old coordinate system
  let ray2 : Ray F := { ray1 with origin := ray1.origin.add translationOffset }
  let this : Sphere F := { self with center := center1.add translationOffset }
  match closest_t with
  | some t => (some (this.fillHit sqrt ray2 t), this)
  | none => (none, this)

/-- Function `glm::max(x, y) = (x < y) ? y : x`. -/
def gmax (x y : F) : F := if x < y then y else x

/-- Function `glm::min(x, y) = (y < x) ? y : x`. -/
def gmin (x y : F) : F := if y < x then y else x

/-- Function `glm::clamp(x, minVal, maxVal) = min(max(x, minVal), maxVal)`. -/
def clamp (x minVal maxVal : F) : F := gmin (gmax x minVal) maxVal

/-- Function `glm::clamp` on `vec3`, component-wise. -/
def Vec3.clamp (v lo hi : Vec3 F) : Vec3 F :=
  ⟨RayTracer.clamp v.x lo.x hi.x, RayTracer.clamp v.y lo.y hi.y, RayTracer.clamp v.z lo.z hi.z⟩

/-- Function `glm::dot` on vectors either of which may be the NaN vector. -/
def dotN (u v : Option (Vec3 F)) : Option F :=
  match u, v with
  | some u, some v => some (dot u v)
  | _, _ => none

/-- The argument of `glm::normalize` for `reflex_direction`:
`2.0f * normal * dot(normal, light_direction) - light_direction`. -/
def reflexArg (normal light_direction : Option (Vec3 F)) : Option (Vec3 F) :=
  match normal, light_direction with
  | some n, some l => some (((Vec3.lscale 2 n).scale (dot n l)).sub l)
  | _, _ => none

/-- Variable `reflex_direction` of `PhongModel`. -/
def reflexDirection (sqrt : F → F) (normal light_direction : Option (Vec3 F)) :
    Option (Vec3 F) :=
  match reflexArg normal light_direction with
  | some v => normalize sqrt v
  | none => none

/-- One iteration of the loop over `lights` in `PhongModel`: `color` after the
diffuse and specular updates for `light`.  Exact reading: `color +=` is exact addition
of finite numbers; `lightStepF` is the same code with rounding, infinities and NaN. -/
def lightStep (sqrt : F → F) (powf : F → F → F) (point : Vec3 F)
    (normal view_direction : Option (Vec3 F)) (material : Material F)
    (color : Vec3 F) (light : Light F) : Vec3 F :=
  -- diffuse
  let light_direction := normalize sqrt (light.position.sub point)
  let color1 :=
    match dotN normal light_direction with
    | some cosOmega =>
      if cosOmega > 0 then color.add ((material.diffuse.scale cosOmega).mul light.color)
      else color
    | none => color
  -- specular
  let reflex_direction := reflexDirection sqrt normal light_direction
  match dotN view_direction reflex_direction with
  | some cosAlpha =>
    if cosAlpha > 0 then
      color1.add ((material.specular.scale (powf cosAlpha material.shininess)).mul light.color)
    else color1
  | none => color1

/-- The diffuse block of the loop body of `PhongModel`: `color` after
`if (cosOmega > 0) color += material.diffuse * cosOmega * light->color;`. -/
def diffuseStep (sqrt : F → F) (point : Vec3 F) (normal : Option (Vec3 F))
    (material : Material F) (color : Vec3 F) (light : Light F) : Vec3 F :=
  let light_direction := normalize sqrt (light.position.sub point)
  match dotN normal light_direction with
  | some cosOmega =>
    if cosOmega > 0 then color.add ((material.diffuse.scale cosOmega).mul light.color)
    else color
  | none => color

/-- The specular block of the loop body of `PhongModel`: `color` after
`if (cosAlpha > 0) color += material.specular * glm::pow(cosAlpha, material.shininess) * light->color;`. -/
def specularStep (sqrt : F → F) (powf : F → F → F) (point : Vec3 F)
    (normal view_direction : Option (Vec3 F)) (material : Material F)
    (color : Vec3 F) (light : Light F) : Vec3 F :=
  let light_direction := normalize sqrt (light.position.sub point)
  let reflex_direction := reflexDirection sqrt normal light_direction
  match dotN view_direction reflex_direction with
  | some cosAlpha =>
    if cosAlpha > 0 then
      color.add ((material.specular.scale (powf cosAlpha material.shininess)).mul light.color)
    else color
  | none => color

/-- Function `PhongModel`; the globals `lights` and `ambient_light` are the first
arguments after the library functions. -/
def PhongModel (sqrt : F → F) (powf : F → F → F) (lights : List (Light F))
    (ambient_light : Vec3 F) (point : Vec3 F) (normal view_direction : Option (Vec3 F))
    (material : Material F) : Vec3 F :=
  let color : Vec3 F := Vec3.splat 0
  -- self-emitting intensity + ambient
  let color := color.add (material.ambient.mul ambient_light)
  let color := lights.foldl (lightStep sqrt powf point normal view_direction material) color
  color.clamp (Vec3.splat 0) (Vec3.splat 1)

/-- The body of the loop of `trace_ray`:
`if (hit.hit == true && hit.distance < closest_hit.distance) closest_hit = hit;`
where a `closest_hit` that is `none` has `distance = INFINITY`. -/
def keepCloser (closest_hit hit : Option (Hit F)) : Option (Hit F) :=
  match hit with
  | none => closest_hit
  | some h =>
    match closest_hit with
    | none => some h
    | some c => if h.distance < c.distance then some h else some c

/-- Variable `closest_hit` of `trace_ray` after the loop over `objects`. -/
def closestHit (sqrt : F → F) (objects : List (Sphere F)) (ray : Ray F) : Option (Hit F) :=
  objects.foldl (fun closest_hit obj => keepCloser closest_hit (obj.intersect sqrt ray).1) none

/-- Function `trace_ray`; the globals `objects`, `lights` and `ambient_light` are
arguments. -/
def trace_ray (sqrt : F → F) (powf : F → F → F) (objects : List (Sphere F))
    (lights : List (Light F)) (ambient_light : Vec3 F) (ray : Ray F) : Vec3 F :=
  match closestHit sqrt objects ray with
  | some closest_hit =>
    PhongModel sqrt powf lights ambient_light closest_hit.intersection closest_hit.normal
      (normalize sqrt ray.direction.neg) closest_hit.object.material
  | none => ⟨0, 0, 0⟩

/-- The vector `glm::vec3(x, y, z)` that `main` builds for pixel `(w, h)` before
`glm::normalize`, from `PIXEL_SIZE`, `X`, `Y` as `main` computes them; `tan` is
`std::tan` and `pi` is `M_PI`.  Exact reading: `PIXEL_SIZE`, `X`, `Y`, `x`, `y` are not
rounded; `pixelDirectionF` is the same code with rounding. -/
def pixelDirection (tan : F → F) (pi : F) (width height : ℤ) (fov : F) (w h : ℤ) : Vec3 F :=
  let PIXEL_SIZE : F := (2 * tan ((fov * pi / 180) / 2)) / width
  -- (X, Y) = top left corner coordinate
  let X : F := -(width * PIXEL_SIZE) / 2
  let Y : F := (height * PIXEL_SIZE) / 2
  let z : F := 1
  let x : F := X + (w + 1 / 2) * PIXEL_SIZE
  let y : F := Y - (h + 1 / 2) * PIXEL_SIZE
  ⟨x, y, z⟩

end Defs

deriving instance DecidableEq for Vec3, Material, Ray, Sphere, Light

/-! ## Binary floating point

The definitions above read `float` as an exact number.  The definitions below model
the same code in IEEE 754 arithmetic: every operation rounds to nearest, ties to even,
`float` is binary32 and the `double` intermediate values of `std::pow`, `std::sqrt`
are binary64.  The sign of zero is not modelled. -/

/-- A value of a C++ `float` or `double`: a finite number, an infinity or NaN. -/
inductive Fl where
  | fin (q : ℚ)
  | pinf
  | ninf
  | nan
  deriving DecidableEq

/-- Operator `<` on floats: false when either side is NaN. -/
def Fl.flt : Fl → Fl → Bool
  | .fin a, .fin b => decide (a < b)
  | .fin _, .pinf => true
  | .ninf, .fin _ => true
  | .ninf, .pinf => true
  | _, _ => false

/-- Operator `==` on floats: false when either side is NaN. -/
def Fl.feq : Fl → Fl → Bool
  | .fin a, .fin b => decide (a = b)
  | .pinf, .pinf => true
  | .ninf, .ninf => true
  | _, _ => false

/-- Operator `<=` on floats; `x >= y` is `Fl.fle y x`. -/
def Fl.fle (x y : Fl) : Bool := x.flt y || x.feq y

/-- Operator `!=` on floats: true when either side is NaN. -/
def Fl.fne (x y : Fl) : Bool := !x.feq y

/-- Unary minus on floats (exact). -/
def Fl.neg : Fl → Fl
  | .fin a => .fin (-a)
  | .pinf => .ninf
  | .ninf => .pinf
  | .nan => .nan

/-- The sign of a float: 1, -1, or 0 for zero and NaN. -/
def Fl.sign : Fl → ℤ
  | .fin a => if 0 < a then 1 else if a < 0 then -1 else 0
  | .pinf => 1
  | .ninf => -1
  | .nan => 0

/-- The power of two `2 ^ z`. -/
def pow2 (z : ℤ) : ℚ :=
  if 0 ≤ z then ((2 ^ z.toNat : ℕ) : ℚ) else 1 / ((2 ^ (-z).toNat : ℕ) : ℚ)

/-- Helper of `natLog2`, recursive on the fuel. -/
def log2Aux : ℕ → ℕ → ℕ
  | 0, _ => 0
  | f + 1, n => if n < 2 then 0 else log2Aux f (n / 2) + 1

/-- The floor of the binary logarithm of `n` (0 for `n = 0`). -/
def natLog2 (n : ℕ) : ℕ := log2Aux n n

/-- The exponent of the binade of `q ≠ 0`: the floor of the binary logarithm of `|q|`. -/
def ilog2 (q : ℚ) : ℤ :=
  let k : ℤ := (natLog2 q.num.natAbs : ℤ) - (natLog2 q.den : ℤ)
  if pow2 k ≤ |q| then k else k - 1

/-- Rounding to the nearest integer, ties to the even one. -/
def roundHalfEven (x : ℚ) : ℤ :=
  let f : ℤ := ⌊x⌋
  let r : ℚ := x - f
  if r < 1 / 2 then f
  else if 1 / 2 < r then f + 1
  else if f % 2 = 0 then f else f + 1

/-- Rounding of an exact result to the binary format of precision `p`, least exponent
`emin` (of the unit in the last place) and greatest exponent `emax`: to nearest, ties
to even, gradual underflow, overflow to infinity. -/
def rnd (p : ℕ) (emin emax : ℤ) (q : ℚ) : Fl :=
  if q = 0 then .fin 0
  else
    let u : ℚ := pow2 (max (ilog2 q - ((p : ℤ) - 1)) emin)
    let r : ℚ := roundHalfEven (q / u) * u
    if pow2 (emax + 1) ≤ |r| then (if 0 < q then .pinf else .ninf) else .fin r

/-- Rounding to binary32 (`float`). -/
def rnd32 (q : ℚ) : Fl := rnd 24 (-149) 127 q

/-- Rounding to binary64 (`double`). -/
def rnd64 (q : ℚ) : Fl := rnd 53 (-1074) 1023 q

/-- Helper of `isqrt`: the bits of the root from bit `b - 1` down to bit 0. -/
def isqrtAux : ℕ → ℕ → ℕ → ℕ
  | 0, _, r => r
  | b + 1, n, r => isqrtAux b n (if (r + 2 ^ b) * (r + 2 ^ b) ≤ n then r + 2 ^ b else r)

/-- The floor of the square root of `n`. -/
def isqrt (n : ℕ) : ℕ := isqrtAux (natLog2 n / 2 + 1) n 0

/-- The correctly rounded square root of a finite number: the root of `q * 4 ^ k` is
taken to `p + 2` bits or more, a sticky bit records whether it is inexact, and the
result is rounded once. -/
def sqrtQ (p : ℕ) (emin emax : ℤ) (q : ℚ) : Fl :=
  if q < 0 then .nan
  else if q = 0 then .fin 0
  else
    let k : ℤ := (p : ℤ) + 2 - ilog2 q / 2
    let y : ℚ := q * pow2 (2 * k)
    let s : ℕ := isqrt (⌊y⌋).toNat
    let sticky : ℕ := if ((s * s : ℕ) : ℚ) = y then 0 else 1
    rnd p emin emax (((2 * s + sticky : ℕ) : ℚ) * pow2 (-(k + 1)))

/-- Addition with the rounding `R` of finite results. -/
def addR (R : ℚ → Fl) : Fl → Fl → Fl
  | .fin a, .fin b => R (a + b)
  | .nan, _ => .nan
  | _, .nan => .nan
  | .pinf, .ninf => .nan
  | .ninf, .pinf => .nan
  | .pinf, _ => .pinf
  | _, .pinf => .pinf
  | .ninf, _ => .ninf
  | _, .ninf => .ninf

/-- Subtraction with the rounding `R` of finite results. -/
def subR (R : ℚ → Fl) (x y : Fl) : Fl := addR R x y.neg

/-- Multiplication with the rounding `R` of finite results. -/
def mulR (R : ℚ → Fl) : Fl → Fl → Fl
  | .fin a, .fin b => R (a * b)
  | .nan, _ => .nan
  | _, .nan => .nan
  | x, y =>
    if x.sign * y.sign = 0 then .nan else if 0 < x.sign * y.sign then .pinf else .ninf

/-- Division with the rounding `R` of finite results; a zero divisor counts as `+0`. -/
def divR (R : ℚ → Fl) : Fl → Fl → Fl
  | .fin a, .fin b =>
    if b = 0 then (if a = 0 then .nan else if 0 < a then .pinf else .ninf) else R (a / b)
  | .nan, _ => .nan
  | _, .nan => .nan
  | .fin _, _ => .fin 0
  | .pinf, .fin b => if b < 0 then .ninf else .pinf
  | .ninf, .fin b => if b < 0 then .pinf else .ninf
  | _, _ => .nan

/-- Square root in the format `p`, `emin`, `emax`. -/
def sqrtR (p : ℕ) (emin emax : ℤ) : Fl → Fl
  | .fin a => sqrtQ p emin emax a
  | .pinf => .pinf
  | _ => .nan

/-- Conversion of a `double` to `float`. -/
def toFloat : Fl → Fl
  | .fin a => rnd32 a
  | x => x

/-- The arithmetic on `float` that `Sphere::intersect`, `PhongModel` and `main` use.
The theorems that quantify over an `Arith` assume nothing about these operations. -/
structure Arith where
  /-- Operator `+` on `float`. -/
  add : Fl → Fl → Fl
  /-- Operator `-` on `float`. -/
  sub : Fl → Fl → Fl
  /-- Operator `*` on `float`. -/
  mul : Fl → Fl → Fl
  /-- Operator `/` on `float`. -/
  div : Fl → Fl → Fl
  /-- Function `sqrt` on `float` (in `glm::length`, `glm::inversesqrt`). -/
  sqrt : Fl → Fl
  /-- The expression `std::sqrt(std::pow(x, 2) - std::pow(y, 2))`, evaluated in
  `double` and assigned to a `float`. -/
  sqrtDiffSq : Fl → Fl → Fl
  /-- Conversion of an `int` to `float`. -/
  ofInt : ℤ → Fl

/-- IEEE 754 arithmetic: binary32 operations, and the binary64 evaluation of
`std::sqrt(std::pow(x, 2) - std::pow(y, 2))`, where `std::pow(x, 2)` is the
square rounded to `double` (exact for a `float` argument). -/
def ieee : Arith where
  add := addR rnd32
  sub := subR rnd32
  mul := mulR rnd32
  div := divR rnd32
  sqrt := sqrtR 24 (-149) 127
  sqrtDiffSq := fun x y =>
    toFloat (sqrtR 53 (-1074) 1023 (subR rnd64 (mulR rnd64 x x) (mulR rnd64 y y)))
  ofInt := fun z => rnd32 z

/-- Arithmetic whose addition is exact (no rounding of `+`); the other operations
are those of `ieee`. -/
def exactAdd : Arith := { ieee with add := addR Fl.fin }

/-- Struct `Hit` with `hit.hit = true`, in float arithmetic; NaN is a value of `Fl`. -/
structure FHit where
  normal : Vec3 Fl
  intersection : Vec3 Fl
  distance : Fl
  object : Sphere Fl
  deriving DecidableEq

/-- Operator `vec3 + vec3` in float arithmetic. -/
def vaddF (ar : Arith) (u v : Vec3 Fl) : Vec3 Fl := ⟨ar.add u.x v.x, ar.add u.y v.y, ar.add u.z v.z⟩

/-- Operator `vec3 - vec3` in float arithmetic. -/
def vsubF (ar : Arith) (u v : Vec3 Fl) : Vec3 Fl := ⟨ar.sub u.x v.x, ar.sub u.y v.y, ar.sub u.z v.z⟩

/-- Operator `vec3 * vec3` (component-wise) in float arithmetic. -/
def vmulF (ar : Arith) (u v : Vec3 Fl) : Vec3 Fl := ⟨ar.mul u.x v.x, ar.mul u.y v.y, ar.mul u.z v.z⟩

/-- Operator `vec3 * float` in float arithmetic. -/
def vscaleF (ar : Arith) (v : Vec3 Fl) (k : Fl) : Vec3 Fl := ⟨ar.mul v.x k, ar.mul v.y k, ar.mul v.z k⟩

/-- Operator `float * vec3` in float arithmetic. -/
def lscaleF (ar : Arith) (k : Fl) (v : Vec3 Fl) : Vec3 Fl := ⟨ar.mul k v.x, ar.mul k v.y, ar.mul k v.z⟩

/-- Function `glm::dot`: the three products are rounded, then summed left to right. -/
def dotF (ar : Arith) (u v : Vec3 Fl) : Fl :=
  ar.add (ar.add (ar.mul u.x v.x) (ar.mul u.y v.y)) (ar.mul u.z v.z)

/-- Function `glm::length(v) = sqrt(dot(v, v))` in float arithmetic. -/
def lengthF (ar : Arith) (v : Vec3 Fl) : Fl := ar.sqrt (dotF ar v v)

/-- Function `glm::distance(p0, p1) = length(p1 - p0)` in float arithmetic. -/
def distanceF (ar : Arith) (p0 p1 : Vec3 Fl) : Fl := lengthF ar (vsubF ar p1 p0)

/-- Function `glm::normalize(v) = v * inversesqrt(dot(v, v))` with
`inversesqrt(x) = 1 / sqrt(x)`, in float arithmetic. -/
def normalizeF (ar : Arith) (v : Vec3 Fl) : Vec3 Fl :=
  vscaleF ar v (ar.div (.fin 1) (ar.sqrt (dotF ar v v)))

/-- The value of `closest_t` in `Sphere::intersect`, in float arithmetic, from the
translated center, the ray direction and the radius. -/
def closestTF (ar : Arith) (center direction : Vec3 Fl) (radius : Fl) : Fl :=
  let a := dotF ar center direction
  let d := ar.sqrtDiffSq (lengthF ar center) a
  if d.feq radius then
    a
  else if d.flt radius then
    let b := ar.sqrtDiffSq radius d
    let t1 := ar.sub a b
    let t2 := ar.add a b
    -- check if camera is not inside sphere
    if t1.flt (.fin 0) && Fl.flt (.fin 0) t2 then
      .pinf
    else
      let t1 := if Fl.fle (.fin 0) t1 then t1 else .pinf
      let t2 := if Fl.fle (.fin 0) t2 then t2 else .pinf
      -- `std::min(t1, t2)`
      if t2.flt t1 then t2 else t1
  else
    .pinf

/-- The body of `if (closest_t != INFINITY)` in `Sphere::intersect`, in float
arithmetic. -/
def Sphere.fillHitF (ar : Arith) (this : Sphere Fl) (ray : Ray Fl) (closest_t : Fl) : FHit :=
  let intersection := vscaleF ar ray.direction closest_t
  -- Translate back intersection to old coordinate system
  let intersection := vaddF ar intersection ray.origin
  { intersection := intersection
    distance := distanceF ar ray.origin intersection
    normal := normalizeF ar (vsubF ar intersection this.center)
    object := this }

/-- Method `Sphere::intersect` in float arithmetic.  Returns the `Hit` (`none`:
`hit.hit == false`) and the sphere as the call leaves it. -/
def Sphere.intersectF (ar : Arith) (self : Sphere Fl) (ray : Ray Fl) :
    Option FHit × Sphere Fl :=
  -- Translate variables to new coordinate system
  let translationOffset := ray.origin
  let ray1 : Ray Fl := { ray with origin := vsubF ar ray.origin translationOffset }
  let center1 := vsubF ar self.center translationOffset
  let closest_t := closestTF ar center1 ray1.direction self.radius
  -- Translate back object variables to old coordinate system
  let ray2 : Ray Fl := { ray1 with origin := vaddF ar ray1.origin translationOffset }
  let this : Sphere Fl := { self with center := vaddF ar center1 translationOffset }
  if closest_t.fne .pinf then (some (this.fillHitF ar ray2 closest_t), this)
  else (none, this)

/-- Function `glm::clamp(x, 0, 1) = min(max(x, 0), 1)` on a float, with
`max(x, y) = (x < y) ? y : x` and `min(x, y) = (y < x) ? y : x`. -/
def clampF (x : Fl) : Fl :=
  let m := if x.flt (.fin 0) then .fin 0 else x
  if Fl.flt (.fin 1) m then .fin 1 else m

/-- One iteration of the loop over `lights` in `PhongModel`, in float arithmetic;
`powf` is `glm::pow`. -/
def lightStepF (ar : Arith) (powf : Fl → Fl → Fl) (point normal view_direction : Vec3 Fl)
    (material : Material Fl) (color : Vec3 Fl) (light : Light Fl) : Vec3 Fl :=
  -- diffuse
  let light_direction := normalizeF ar (vsubF ar light.position point)
  let cosOmega := dotF ar normal light_direction
  let color :=
    if Fl.flt (.fin 0) cosOmega then
      vaddF ar color (vmulF ar (vscaleF ar material.diffuse cosOmega) light.color)
    else color
  -- specular
  let reflex_direction := normalizeF ar
    (vsubF ar (vscaleF ar (lscaleF ar (.fin 2) normal) (dotF ar normal light_direction))
      light_direction)
  let cosAlpha := dotF ar view_direction reflex_direction
  if Fl.flt (.fin 0) cosAlpha then
    vaddF ar color
      (vmulF ar (vscaleF ar material.specular (powf cosAlpha material.shininess)) light.color)
  else color

/-- The vectors that one iteration of the loop over `lights` in `PhongModel` adds to
`color`, in the order in which `color +=` adds them: the diffuse term when
`cosOmega > 0`, then the specular term when `cosAlpha > 0`. -/
def lightTermsF (ar : Arith) (powf : Fl → Fl → Fl) (point normal view_direction : Vec3 Fl)
    (material : Material Fl) (light : Light Fl) : List (Vec3 Fl) :=
  let light_direction := normalizeF ar (vsubF ar light.position point)
  let cosOmega := dotF ar normal light_direction
  let reflex_direction := normalizeF ar
    (vsubF ar (vscaleF ar (lscaleF ar (.fin 2) normal) (dotF ar normal light_direction))
      light_direction)
  let cosAlpha := dotF ar view_direction reflex_direction
  (if Fl.flt (.fin 0) cosOmega then
      [vmulF ar (vscaleF ar material.diffuse cosOmega) light.color]
    else []) ++
  (if Fl.flt (.fin 0) cosAlpha then
      [vmulF ar (vscaleF ar material.specular (powf cosAlpha material.shininess)) light.color]
    else [])

/-- Function `PhongModel` in float arithmetic. -/
def PhongModelF (ar : Arith) (powf : Fl → Fl → Fl) (lights : List (Light Fl))
    (ambient_light point normal view_direction : Vec3 Fl) (material : Material Fl) : Vec3 Fl :=
  let color : Vec3 Fl := ⟨.fin 0, .fin 0, .fin 0⟩
  -- self-emitting intensity + ambient
  let color := vaddF ar color (vmulF ar material.ambient ambient_light)
  let color := lights.foldl (lightStepF ar powf point normal view_direction material) color
  ⟨clampF color.x, clampF color.y, clampF color.z⟩

/-- The `x` that `main` computes for pixel column `w`, in float arithmetic, from the
`float` constant `PIXEL_SIZE`. -/
def pixelXF (ar : Arith) (PIXEL_SIZE : Fl) (width w : ℤ) : Fl :=
  -- (X, Y) = top left corner coordinate
  let X := ar.div (ar.mul (ar.ofInt width) PIXEL_SIZE).neg (.fin 2)
  ar.add X (ar.mul (ar.add (ar.ofInt w) (.fin (1 / 2))) PIXEL_SIZE)

/-- The `y` that `main` computes for pixel row `h`, in float arithmetic. -/
def pixelYF (ar : Arith) (PIXEL_SIZE : Fl) (height h : ℤ) : Fl :=
  let Y := ar.div (ar.mul (ar.ofInt height) PIXEL_SIZE) (.fin 2)
  ar.sub Y (ar.mul (ar.add (ar.ofInt h) (.fin (1 / 2))) PIXEL_SIZE)

/-- The vector `glm::vec3(x, y, z)` of pixel `(w, h)` before `glm::normalize`, in
float arithmetic.  `PIXEL_SIZE` is the `float` that `main` assigns from
`(2 * std::tan((fov * M_PI / 180) / 2)) / width`: `1` for `fov = 90`, `width = 2`, and
the float nearest to `2 / 3` for `fov = 90`, `width = 3`. -/
def pixelDirectionF (ar : Arith) (PIXEL_SIZE : Fl) (width height w h : ℤ) : Vec3 Fl :=
  ⟨pixelXF ar PIXEL_SIZE width w, pixelYF ar PIXEL_SIZE height h, .fin 1⟩


/-! ## Auxiliary facts over the reals -/

theorem dot_self_nonneg (v : Vec3 ℝ) : 0 ≤ dot v v := by
  unfold dot
  nlinarith [mul_self_nonneg v.x, mul_self_nonneg v.y, mul_self_nonneg v.z]

theorem length_sq (v : Vec3 ℝ) : (length Real.sqrt v) ^ 2 = dot v v := by
  unfold length
  exact Real.sq_sqrt (dot_self_nonneg v)

theorem dot_self_of_unit {v : Vec3 ℝ} (h : length Real.sqrt v = 1) : dot v v = 1 := by
  have h2 := length_sq v
  rw [h] at h2
  linarith

/-- Lagrange identity: for a unit direction the radicand of `d` is a sum of squares. -/
theorem radicand_nonneg (c dir : Vec3 ℝ) (h : dot dir dir = 1) :
    0 ≤ dot c c - (dot c dir) ^ 2 := by
  have key : dot c c - (dot c dir) ^ 2 =
      (c.x * dir.y - c.y * dir.x) ^ 2 + (c.y * dir.z - c.z * dir.y) ^ 2 +
        (c.z * dir.x - c.x * dir.z) ^ 2 := by
    have e : dot c c - (dot c dir) ^ 2 = dot c c * dot dir dir - (dot c dir) ^ 2 := by
      rw [h, mul_one]
    rw [e]
    unfold dot
    ring
  rw [key]
  positivity

/-- The value of `closest_t` for a unit direction, with the two square roots
written out: `D` is the radicand of `d`. -/
theorem closestT_unit (c dir : Vec3 ℝ) (r : ℝ) (h : dot dir dir = 1) :
    closestT Real.sqrt c dir r =
      if Real.sqrt (dot c c - (dot c dir) ^ 2) = r then some (dot c dir)
      else if Real.sqrt (dot c c - (dot c dir) ^ 2) < r then
        if dot c dir - Real.sqrt (r ^ 2 - (dot c c - (dot c dir) ^ 2)) < 0 ∧
            0 < dot c dir + Real.sqrt (r ^ 2 - (dot c c - (dot c dir) ^ 2)) then none
        else
          fmin
            (if dot c dir - Real.sqrt (r ^ 2 - (dot c c - (dot c dir) ^ 2)) ≥ 0 then
              some (dot c dir - Real.sqrt (r ^ 2 - (dot c c - (dot c dir) ^ 2))) else none)
            (if dot c dir + Real.sqrt (r ^ 2 - (dot c c - (dot c dir) ^ 2)) ≥ 0 then
              some (dot c dir + Real.sqrt (r ^ 2 - (dot c c - (dot c dir) ^ 2))) else none)
      else none := by
  have hD := radicand_nonneg c dir h
  have hsq : Real.sqrt (dot c c - (dot c dir) ^ 2) ^ 2 = dot c c - (dot c dir) ^ 2 :=
    Real.sq_sqrt hD
  have hd0 : 0 ≤ Real.sqrt (dot c c - (dot c dir) ^ 2) := Real.sqrt_nonneg _
  unfold closestT
  simp only [length_sq, fsqrt, not_lt.mpr hD, if_false]
  by_cases h1 : Real.sqrt (dot c c - (dot c dir) ^ 2) = r
  · simp only [h1, if_true]
  · simp only [h1, if_false]
    by_cases h2 : Real.sqrt (dot c c - (dot c dir) ^ 2) < r
    · have hb : ¬ (r ^ 2 - (dot c c - (dot c dir) ^ 2) < 0) := by
        have h3 : Real.sqrt (dot c c - (dot c dir) ^ 2) ^ 2 ≤ r ^ 2 := by nlinarith
        linarith
      simp only [h2, if_true, hsq, hb, if_false]
    · simp only [h2, if_false]

theorem sub_add_self (u v : Vec3 ℝ) : (u.sub v).add v = u := by
  ext <;> simp [Vec3.sub, Vec3.add]

theorem intersect_fst (s : Sphere ℝ) (ray : Ray ℝ) :
    (s.intersect Real.sqrt ray).1 =
      (closestT Real.sqrt (s.center.sub ray.origin) ray.direction s.radius).map
        (s.fillHit Real.sqrt ray) := by
  unfold Sphere.intersect
  simp only [sub_add_self]
  cases closestT Real.sqrt (s.center.sub ray.origin) ray.direction s.radius <;> rfl

theorem intersect_snd (s : Sphere ℝ) (ray : Ray ℝ) :
    (s.intersect Real.sqrt ray).2 = s := by
  unfold Sphere.intersect
  simp only [sub_add_self]
  cases closestT Real.sqrt (s.center.sub ray.origin) ray.direction s.radius <;> rfl

theorem distance_hit (o dir : Vec3 ℝ) (t : ℝ) (h : dot dir dir = 1) :
    distance Real.sqrt o ((dir.scale t).add o) = |t| := by
  have e : dot (((dir.scale t).add o).sub o) (((dir.scale t).add o).sub o) = t ^ 2 := by
    unfold dot at h
    simp only [dot, Vec3.sub, Vec3.add, Vec3.scale]
    linear_combination (t ^ 2) * h
  unfold distance length
  rw [e, Real.sqrt_sq_eq_abs]

theorem hit_point_dot (c o dir : Vec3 ℝ) (t : ℝ) (h : dot dir dir = 1) :
    dot (((dir.scale t).add o).sub c) (((dir.scale t).add o).sub c) =
      t ^ 2 - 2 * t * dot (c.sub o) dir + dot (c.sub o) (c.sub o) := by
  unfold dot at h
  simp only [dot, Vec3.sub, Vec3.add, Vec3.scale]
  linear_combination (t ^ 2) * h

/-- The ways `closest_t` can be finite for a unit direction: the tangent root, or a
non-negative one of the two roots `a - b`, `a + b`. -/
theorem closestT_cases (c dir : Vec3 ℝ) (r t : ℝ) (h : dot dir dir = 1)
    (ht : closestT Real.sqrt c dir r = some t) :
    (Real.sqrt (dot c c - (dot c dir) ^ 2) = r ∧ t = dot c dir) ∨
      (Real.sqrt (dot c c - (dot c dir) ^ 2) < r ∧ 0 ≤ t ∧
        (t = dot c dir - Real.sqrt (r ^ 2 - (dot c c - (dot c dir) ^ 2)) ∨
          t = dot c dir + Real.sqrt (r ^ 2 - (dot c c - (dot c dir) ^ 2)))) := by
  rw [closestT_unit c dir r h] at ht
  by_cases h1 : Real.sqrt (dot c c - (dot c dir) ^ 2) = r
  · left
    rw [if_pos h1] at ht
    exact ⟨h1, (Option.some.inj ht).symm⟩
  · right
    rw [if_neg h1] at ht
    by_cases h2 : Real.sqrt (dot c c - (dot c dir) ^ 2) < r
    · rw [if_pos h2] at ht
      refine ⟨h2, ?_⟩
      split_ifs at ht with h3 h4 h5 h5
      · simp only [fmin] at ht
        split_ifs at ht with h6
        · have e := Option.some.inj ht
          exact ⟨by linarith, Or.inr e.symm⟩
        · have e := Option.some.inj ht
          exact ⟨by linarith, Or.inl e.symm⟩
      · simp only [fmin] at ht
        have e := Option.some.inj ht
        exact ⟨by linarith, Or.inl e.symm⟩
      · simp only [fmin] at ht
        have e := Option.some.inj ht
        exact ⟨by linarith, Or.inr e.symm⟩
      · simp [fmin] at ht
    · rw [if_neg h2] at ht
      exact absurd ht (by simp)

/-- A finite `closest_t` for a unit direction solves the sphere equation. -/
theorem closestT_on_sphere (c dir : Vec3 ℝ) (r t : ℝ) (h : dot dir dir = 1)
    (ht : closestT Real.sqrt c dir r = some t) :
    t ^ 2 - 2 * t * dot c dir + dot c c = r ^ 2 := by
  have hD := radicand_nonneg c dir h
  rcases closestT_cases c dir r t h ht with ⟨h1, h2⟩ | ⟨h1, _, h3⟩
  · have e := Real.sq_sqrt hD
    rw [h1] at e
    rw [h2]
    linarith
  · have hd0 : 0 ≤ Real.sqrt (dot c c - (dot c dir) ^ 2) := Real.sqrt_nonneg _
    have e := Real.sq_sqrt hD
    have hb : 0 ≤ r ^ 2 - (dot c c - (dot c dir) ^ 2) := by nlinarith
    have eb := Real.sq_sqrt hb
    rcases h3 with h3 | h3 <;> rw [h3] <;> nlinarith

theorem fillHit_intersection (s : Sphere ℝ) (ray : Ray ℝ) (t : ℝ) :
    (s.fillHit Real.sqrt ray t).intersection = ray.origin.add (ray.direction.scale t) := by
  ext <;> simp [Sphere.fillHit, Vec3.add, Vec3.scale, add_comm]

theorem fillHit_distance (s : Sphere ℝ) (ray : Ray ℝ) (t : ℝ)
    (h : dot ray.direction ray.direction = 1) :
    (s.fillHit Real.sqrt ray t).distance = |t| := by
  simp only [Sphere.fillHit]
  exact distance_hit ray.origin ray.direction t h

/-- The hit point of a finite `closest_t` is at distance `|radius|` from the center. -/
theorem fillHit_dot_center (s : Sphere ℝ) (ray : Ray ℝ) (t : ℝ)
    (h : dot ray.direction ray.direction = 1)
    (ht : closestT Real.sqrt (s.center.sub ray.origin) ray.direction s.radius = some t) :
    dot ((s.fillHit Real.sqrt ray t).intersection.sub s.center)
      ((s.fillHit Real.sqrt ray t).intersection.sub s.center) = s.radius ^ 2 := by
  simp only [Sphere.fillHit]
  rw [hit_point_dot s.center ray.origin ray.direction t h]
  exact closestT_on_sphere _ _ _ _ h ht

theorem fillHit_on_sphere (s : Sphere ℝ) (ray : Ray ℝ) (t : ℝ) (hr : 0 ≤ s.radius)
    (h : dot ray.direction ray.direction = 1)
    (ht : closestT Real.sqrt (s.center.sub ray.origin) ray.direction s.radius = some t) :
    length Real.sqrt ((s.fillHit Real.sqrt ray t).intersection.sub s.center) = s.radius := by
  unfold length
  rw [fillHit_dot_center s ray t h ht]
  exact Real.sqrt_sq hr

theorem sqrt_of_eq_sq {x k : ℝ} (hk : 0 ≤ k) (h : x = k ^ 2) : Real.sqrt x = k := by
  rw [h]
  exact Real.sqrt_sq hk

theorem length_of_dot_eq_sq {v : Vec3 ℝ} {k : ℝ} (hk : 0 ≤ k) (h : dot v v = k ^ 2) :
    length Real.sqrt v = k :=
  sqrt_of_eq_sq hk h

/-- A hit of `Sphere::intersect` comes from a finite `closest_t`. -/
theorem intersect_some (s : Sphere ℝ) (ray : Ray ℝ) (h : Hit ℝ)
    (hh : (s.intersect Real.sqrt ray).1 = some h) :
    ∃ t, closestT Real.sqrt (s.center.sub ray.origin) ray.direction s.radius = some t ∧
      s.fillHit Real.sqrt ray t = h := by
  rw [intersect_fst] at hh
  exact Option.map_eq_some'.mp hh

theorem intersect_of_closestT (s : Sphere ℝ) (ray : Ray ℝ) (t : ℝ)
    (ht : closestT Real.sqrt (s.center.sub ray.origin) ray.direction s.radius = some t) :
    (s.intersect Real.sqrt ray).1 = some (s.fillHit Real.sqrt ray t) := by
  rw [intersect_fst, ht]
  rfl

/-- The normal of a hit point at distance `r > 0` from the center. -/
theorem normalize_of_dot_eq_sq (v : Vec3 ℝ) (r : ℝ) (hr : 0 < r) (h : dot v v = r ^ 2) :
    normalize Real.sqrt v = some ⟨v.x / r, v.y / r, v.z / r⟩ := by
  have hne : dot v v ≠ 0 := by
    rw [h]
    positivity
  unfold normalize
  rw [if_neg hne, h, Real.sqrt_sq hr.le]
  simp only [Vec3.scale, mul_one_div]

theorem length_div_of_dot_eq_sq (v : Vec3 ℝ) (r : ℝ) (hr : 0 < r) (h : dot v v = r ^ 2) :
    length Real.sqrt (⟨v.x / r, v.y / r, v.z / r⟩ : Vec3 ℝ) = 1 := by
  apply length_of_dot_eq_sq (by norm_num)
  have hne : r ≠ 0 := ne_of_gt hr
  simp only [dot] at h ⊢
  field_simp
  linarith

/-- Evaluation of `closest_t`: sphere of radius 1 centered at (0,0,3), ray from the
world origin along +z. -/
theorem closestT_front :
    closestT Real.sqrt ((⟨0, 0, 3⟩ : Vec3 ℝ).sub ⟨0, 0, 0⟩) ⟨0, 0, 1⟩ 1 = some 2 := by
  rw [closestT_unit _ _ _ (by simp [dot])]
  have e1 : dot ((⟨0, 0, 3⟩ : Vec3 ℝ).sub ⟨0, 0, 0⟩) ((⟨0, 0, 3⟩ : Vec3 ℝ).sub ⟨0, 0, 0⟩) -
      (dot ((⟨0, 0, 3⟩ : Vec3 ℝ).sub ⟨0, 0, 0⟩) ⟨0, 0, 1⟩) ^ 2 = 0 := by
    simp [dot, Vec3.sub]
    norm_num
  have e2 : dot ((⟨0, 0, 3⟩ : Vec3 ℝ).sub ⟨0, 0, 0⟩) ⟨0, 0, 1⟩ = 3 := by
    simp [dot, Vec3.sub]
  rw [e1, e2]
  norm_num [fmin]

/-- Evaluation of `closest_t`: sphere of radius 1 centered at (0,0,5), ray from the
world origin along +z. -/
theorem closestT_far :
    closestT Real.sqrt ((⟨0, 0, 5⟩ : Vec3 ℝ).sub ⟨0, 0, 0⟩) ⟨0, 0, 1⟩ 1 = some 4 := by
  rw [closestT_unit _ _ _ (by simp [dot])]
  have e1 : dot ((⟨0, 0, 5⟩ : Vec3 ℝ).sub ⟨0, 0, 0⟩) ((⟨0, 0, 5⟩ : Vec3 ℝ).sub ⟨0, 0, 0⟩) -
      (dot ((⟨0, 0, 5⟩ : Vec3 ℝ).sub ⟨0, 0, 0⟩) ⟨0, 0, 1⟩) ^ 2 = 0 := by
    simp [dot, Vec3.sub]
    norm_num
  have e2 : dot ((⟨0, 0, 5⟩ : Vec3 ℝ).sub ⟨0, 0, 0⟩) ⟨0, 0, 1⟩ = 5 := by
    simp [dot, Vec3.sub]
  rw [e1, e2]
  norm_num [fmin]

/-- Evaluation of `closest_t`: sphere of radius 3 centered at (3,0,-4), ray from the
world origin along +z.  The line is tangent to the sphere at (0,0,-4). -/
theorem closestT_behind :
    closestT Real.sqrt ((⟨3, 0, -4⟩ : Vec3 ℝ).sub ⟨0, 0, 0⟩) ⟨0, 0, 1⟩ 3 = some (-4) := by
  rw [closestT_unit _ _ _ (by simp [dot])]
  have e1 : dot ((⟨3, 0, -4⟩ : Vec3 ℝ).sub ⟨0, 0, 0⟩) ((⟨3, 0, -4⟩ : Vec3 ℝ).sub ⟨0, 0, 0⟩) -
      (dot ((⟨3, 0, -4⟩ : Vec3 ℝ).sub ⟨0, 0, 0⟩) ⟨0, 0, 1⟩) ^ 2 = 3 ^ 2 := by
    simp [dot, Vec3.sub]
    norm_num
  have e2 : dot ((⟨3, 0, -4⟩ : Vec3 ℝ).sub ⟨0, 0, 0⟩) ⟨0, 0, 1⟩ = -4 := by
    simp [dot, Vec3.sub]
  rw [e1, e2, Real.sqrt_sq (by norm_num)]
  simp

/-- Evaluation of `closest_t`: sphere of radius 1 centered at (2,0,3), ray from the
world origin along +z.  The line passes at distance 2 from the center. -/
theorem closestT_side :
    closestT Real.sqrt ((⟨2, 0, 3⟩ : Vec3 ℝ).sub ⟨0, 0, 0⟩) ⟨0, 0, 1⟩ 1 = none := by
  rw [closestT_unit _ _ _ (by simp [dot])]
  have e1 : dot ((⟨2, 0, 3⟩ : Vec3 ℝ).sub ⟨0, 0, 0⟩) ((⟨2, 0, 3⟩ : Vec3 ℝ).sub ⟨0, 0, 0⟩) -
      (dot ((⟨2, 0, 3⟩ : Vec3 ℝ).sub ⟨0, 0, 0⟩) ⟨0, 0, 1⟩) ^ 2 = 2 ^ 2 := by
    simp [dot, Vec3.sub]
    norm_num
  rw [e1, Real.sqrt_sq (by norm_num)]
  norm_num

theorem intersect_of_closestT_none (s : Sphere ℝ) (ray : Ray ℝ)
    (ht : closestT Real.sqrt (s.center.sub ray.origin) ray.direction s.radius = none) :
    (s.intersect Real.sqrt ray).1 = none := by
  rw [intersect_fst, ht]
  rfl

/-- The loop of `trace_ray` started from any `closest_hit` (`acc`), over objects whose
intersection results are given by `f`: either no object replaced `acc`, and then every
hit is at least as far as it, or the result is the hit of an object that is strictly
closer than `acc` and than every hit before it and at least as close as every hit
after it. -/
theorem foldl_keepCloser {α : Type} (f : α → Option (Hit ℝ)) (objects : List α)
    (acc : Option (Hit ℝ)) :
    (objects.foldl (fun c o => keepCloser c (f o)) acc = acc ∧
        ∀ o ∈ objects, ∀ h, f o = some h → ∃ c, acc = some c ∧ c.distance ≤ h.distance) ∨
      ∃ pre o post h, objects = pre ++ o :: post ∧ f o = some h ∧
        objects.foldl (fun c o => keepCloser c (f o)) acc = some h ∧
        (∀ c, acc = some c → h.distance < c.distance) ∧
        (∀ p ∈ pre, ∀ hp, f p = some hp → h.distance < hp.distance) ∧
        (∀ q ∈ post, ∀ hq, f q = some hq → h.distance ≤ hq.distance) := by
  induction objects generalizing acc with
  | nil =>
    left
    exact ⟨rfl, fun o ho => absurd ho (List.not_mem_nil o)⟩
  | cons x xs ih =>
    rw [List.foldl_cons]
    cases hx : f x with
    | none =>
      have hk : keepCloser acc (none : Option (Hit ℝ)) = acc := rfl
      rw [hk]
      rcases ih acc with ⟨h1, h2⟩ | ⟨pre, o, post, h, e, ho, hr, hacc, hpre, hpost⟩
      · left
        refine ⟨h1, ?_⟩
        intro o ho h hh
        rcases List.mem_cons.mp ho with rfl | ho
        · rw [hx] at hh
          exact absurd hh (by simp)
        · exact h2 o ho h hh
      · right
        refine ⟨x :: pre, o, post, h, by rw [e]; rfl, ho, hr, hacc, ?_, hpost⟩
        intro p hp hph hh
        rcases List.mem_cons.mp hp with rfl | hp
        · rw [hx] at hh
          exact absurd hh (by simp)
        · exact hpre p hp hph hh
    | some hxv =>
      cases acc with
      | none =>
        have hk : keepCloser (none : Option (Hit ℝ)) (some hxv) = some hxv := rfl
        rw [hk]
        right
        rcases ih (some hxv) with ⟨h1, h2⟩ | ⟨pre, o, post, h, e, ho, hr, hacc, hpre, hpost⟩
        · refine ⟨[], x, xs, hxv, rfl, hx, h1, ?_, ?_, ?_⟩
          · intro c hc
            exact absurd hc (by simp)
          · intro p hp
            exact absurd hp (List.not_mem_nil p)
          · intro q hq hqh hh
            obtain ⟨c, hc, hle⟩ := h2 q hq hqh hh
            rw [Option.some.inj hc]
            exact hle
        · refine ⟨x :: pre, o, post, h, by rw [e]; rfl, ho, hr, ?_, ?_, hpost⟩
          · intro c hc
            exact absurd hc (by simp)
          · intro p hp hph hh
            rcases List.mem_cons.mp hp with rfl | hp
            · rw [hx] at hh
              rw [← Option.some.inj hh]
              exact hacc hxv rfl
            · exact hpre p hp hph hh
      | some c =>
        by_cases hlt : hxv.distance < c.distance
        · have hk : keepCloser (some c) (some hxv) = some hxv := by
            simp only [keepCloser, if_pos hlt]
          rw [hk]
          right
          rcases ih (some hxv) with ⟨h1, h2⟩ | ⟨pre, o, post, h, e, ho, hr, hacc, hpre, hpost⟩
          · refine ⟨[], x, xs, hxv, rfl, hx, h1, ?_, ?_, ?_⟩
            · intro c' hc'
              rw [← Option.some.inj hc']
              exact hlt
            · intro p hp
              exact absurd hp (List.not_mem_nil p)
            · intro q hq hqh hh
              obtain ⟨c', hc', hle⟩ := h2 q hq hqh hh
              rw [Option.some.inj hc']
              exact hle
          · refine ⟨x :: pre, o, post, h, by rw [e]; rfl, ho, hr, ?_, ?_, hpost⟩
            · intro c' hc'
              rw [← Option.some.inj hc']
              exact lt_trans (hacc hxv rfl) hlt
            · intro p hp hph hh
              rcases List.mem_cons.mp hp with rfl | hp
              · rw [hx] at hh
                rw [← Option.some.inj hh]
                exact hacc hxv rfl
              · exact hpre p hp hph hh
        · have hk : keepCloser (some c) (some hxv) = some c := by
            simp only [keepCloser, if_neg hlt]
          rw [hk]
          rcases ih (some c) with ⟨h1, h2⟩ | ⟨pre, o, post, h, e, ho, hr, hacc, hpre, hpost⟩
          · left
            refine ⟨h1, ?_⟩
            intro o ho h hh
            rcases List.mem_cons.mp ho with rfl | ho
            · rw [hx] at hh
              rw [← Option.some.inj hh]
              exact ⟨c, rfl, not_lt.mp hlt⟩
            · exact h2 o ho h hh
          · right
            refine ⟨x :: pre, o, post, h, by rw [e]; rfl, ho, hr, hacc, ?_, hpost⟩
            intro p hp hph hh
            rcases List.mem_cons.mp hp with rfl | hp
            · rw [hx] at hh
              rw [← Option.some.inj hh]
              exact lt_of_lt_of_le (hacc c rfl) (not_lt.mp hlt)
            · exact hpre p hp hph hh

theorem clamp_unit_bounds (x : ℝ) : 0 ≤ clamp x 0 1 ∧ clamp x 0 1 ≤ 1 := by
  unfold clamp gmin gmax
  split_ifs <;> constructor <;> linarith

theorem clamp_of_mem {x : ℝ} (h0 : 0 ≤ x) (h1 : x ≤ 1) : clamp x 0 1 = x := by
  unfold clamp gmin gmax
  rw [if_neg (not_lt.mpr h0), if_neg (not_lt.mpr h1)]

/-- `PhongModel` with one light is the clamped result of one loop iteration started
from the ambient term. -/
theorem PhongModel_single (sqrt : ℝ → ℝ) (powf : ℝ → ℝ → ℝ) (light : Light ℝ)
    (ambient_light point : Vec3 ℝ) (normal view_direction : Option (Vec3 ℝ))
    (material : Material ℝ) :
    PhongModel sqrt powf [light] ambient_light point normal view_direction material =
      (lightStep sqrt powf point normal view_direction material
        ((Vec3.splat 0).add (material.ambient.mul ambient_light)) light).clamp
        (Vec3.splat 0) (Vec3.splat 1) := rfl

theorem PhongModel_nil (sqrt : ℝ → ℝ) (powf : ℝ → ℝ → ℝ)
    (ambient_light point : Vec3 ℝ) (normal view_direction : Option (Vec3 ℝ))
    (material : Material ℝ) :
    PhongModel sqrt powf [] ambient_light point normal view_direction material =
      ((Vec3.splat 0).add (material.ambient.mul ambient_light)).clamp
        (Vec3.splat 0) (Vec3.splat 1) := rfl

/-- One loop iteration of `PhongModel` for a light behind the surface
(`dot(normal, light_direction) <= 0`): the diffuse update is skipped, the specular
update is not. -/
theorem lightStep_backface (powf : ℝ → ℝ → ℝ) (point n v l color : Vec3 ℝ)
    (material : Material ℝ) (light : Light ℝ)
    (hl : normalize Real.sqrt (light.position.sub point) = some l)
    (hcos : dot n l ≤ 0) :
    lightStep Real.sqrt powf point (some n) (some v) material color light =
      match reflexDirection Real.sqrt (some n) (some l) with
      | some r =>
        if dot v r > 0 then
          color.add ((material.specular.scale (powf (dot v r) material.shininess)).mul
            light.color)
        else color
      | none => color := by
  unfold lightStep
  simp only [hl, dotN, if_neg (not_lt.mpr hcos)]
  cases reflexDirection Real.sqrt (some n) (some l) <;> rfl

/-- Evaluation of `light_direction` for the light at (4,0,-3) seen from the world origin. -/
theorem normalize_light_below :
    normalize Real.sqrt ((⟨4, 0, -3⟩ : Vec3 ℝ).sub ⟨0, 0, 0⟩) = some ⟨4 / 5, 0, -3 / 5⟩ := by
  have e : dot ((⟨4, 0, -3⟩ : Vec3 ℝ).sub ⟨0, 0, 0⟩) ((⟨4, 0, -3⟩ : Vec3 ℝ).sub ⟨0, 0, 0⟩) =
      5 ^ 2 := by
    simp [dot, Vec3.sub]
    norm_num
  unfold normalize
  rw [e, Real.sqrt_sq (by norm_num), if_neg (by norm_num)]
  simp [Vec3.scale, Vec3.sub]
  norm_num

/-- Evaluation of `reflex_direction` for the normal (0,0,1) and the light direction
(4/5,0,-3/5). -/
theorem reflexDirection_light_below :
    reflexDirection Real.sqrt (some (⟨0, 0, 1⟩ : Vec3 ℝ)) (some ⟨4 / 5, 0, -3 / 5⟩) =
      some ⟨-4 / 5, 0, -3 / 5⟩ := by
  have e : ((Vec3.lscale 2 (⟨0, 0, 1⟩ : Vec3 ℝ)).scale
      (dot (⟨0, 0, 1⟩ : Vec3 ℝ) ⟨4 / 5, 0, -3 / 5⟩)).sub ⟨4 / 5, 0, -3 / 5⟩ =
        ⟨-4 / 5, 0, -3 / 5⟩ := by
    ext <;> simp [Vec3.lscale, Vec3.scale, Vec3.sub, dot] <;> norm_num
  have e2 : dot (⟨-4 / 5, 0, -3 / 5⟩ : Vec3 ℝ) ⟨-4 / 5, 0, -3 / 5⟩ = 1 := by
    simp [dot]
    norm_num
  simp only [reflexDirection, reflexArg, e, normalize, e2, Real.sqrt_one]
  simp [Vec3.scale]

theorem add_sub_add_right_vec (u w v : Vec3 ℝ) : (u.add v).sub (w.add v) = u.sub w := by
  ext <;> simp [Vec3.sub, Vec3.add]

theorem add_add_vec (a o v : Vec3 ℝ) : a.add (o.add v) = (a.add o).add v := by
  ext <;> simp [Vec3.add, add_assoc]

/-- For a unit direction the perpendicular distance `d` is a number (not NaN), is
non-negative and its square is the radicand. -/
theorem perp_dist_facts (c dir : Vec3 ℝ) (a d : ℝ) (hdir : dot dir dir = 1)
    (ha : a = dot c dir)
    (hd : d = Real.sqrt ((length Real.sqrt c) ^ 2 - a ^ 2)) :
    0 ≤ d ∧ d ^ 2 = dot c c - a ^ 2 ∧ d = Real.sqrt (dot c c - (dot c dir) ^ 2) := by
  have hD := radicand_nonneg c dir hdir
  rw [length_sq, ha] at hd
  refine ⟨?_, ?_, hd⟩
  · rw [hd]
    exact Real.sqrt_nonneg _
  · rw [hd, ha]
    exact Real.sq_sqrt hD

/-- The value of `closest_t` in the two-root branch, with the names of the source. -/
theorem closestT_two_roots (c dir : Vec3 ℝ) (r a d b : ℝ) (hdir : dot dir dir = 1)
    (ha : a = dot c dir)
    (hd : d = Real.sqrt ((length Real.sqrt c) ^ 2 - a ^ 2))
    (hdr : d < r)
    (hb : b = Real.sqrt (r ^ 2 - d ^ 2)) :
    closestT Real.sqrt c dir r =
      if a - b < 0 ∧ 0 < a + b then none
      else fmin (if a - b ≥ 0 then some (a - b) else none)
        (if a + b ≥ 0 then some (a + b) else none) := by
  obtain ⟨-, hd2, hd'⟩ := perp_dist_facts c dir a d hdir ha hd
  rw [ha] at hd2
  rw [closestT_unit c dir r hdir, ← hd', ← hd2, ← hb, ← ha, if_neg (ne_of_lt hdr), if_pos hdr]

theorem normalize_of_ne_zero (v : Vec3 ℝ) (h : dot v v ≠ 0) :
    normalize Real.sqrt v = some (v.scale (1 / Real.sqrt (dot v v))) := by
  unfold normalize
  rw [if_neg h]

/-- The loop body of `PhongModel` is the diffuse block followed by the specular block. -/
theorem lightStep_eq (sqrt : ℝ → ℝ) (powf : ℝ → ℝ → ℝ) (point : Vec3 ℝ)
    (normal view_direction : Option (Vec3 ℝ)) (material : Material ℝ)
    (color : Vec3 ℝ) (light : Light ℝ) :
    lightStep sqrt powf point normal view_direction material color light =
      specularStep sqrt powf point normal view_direction material
        (diffuseStep sqrt point normal material color light) light := rfl

theorem diffuseStep_add (sqrt : ℝ → ℝ) (point : Vec3 ℝ) (normal : Option (Vec3 ℝ))
    (material : Material ℝ) (color : Vec3 ℝ) (light : Light ℝ) :
    diffuseStep sqrt point normal material color light =
      color.add (diffuseStep sqrt point normal material ⟨0, 0, 0⟩ light) := by
  unfold diffuseStep
  simp only []
  generalize dotN normal (normalize sqrt (light.position.sub point)) = o
  cases o with
  | none => ext <;> simp [Vec3.add]
  | some c =>
    simp only []
    split_ifs <;> ext <;> simp [Vec3.add]

theorem specularStep_add (sqrt : ℝ → ℝ) (powf : ℝ → ℝ → ℝ) (point : Vec3 ℝ)
    (normal view_direction : Option (Vec3 ℝ)) (material : Material ℝ)
    (color : Vec3 ℝ) (light : Light ℝ) :
    specularStep sqrt powf point normal view_direction material color light =
      color.add (specularStep sqrt powf point normal view_direction material ⟨0, 0, 0⟩ light) := by
  unfold specularStep
  simp only []
  generalize dotN view_direction
    (reflexDirection sqrt normal (normalize sqrt (light.position.sub point))) = o
  cases o with
  | none => ext <;> simp [Vec3.add]
  | some c =>
    simp only []
    split_ifs <;> ext <;> simp [Vec3.add]

/-- One loop iteration of `PhongModel` adds to `color` a vector that does not depend
on `color`. -/
theorem lightStep_add (sqrt : ℝ → ℝ) (powf : ℝ → ℝ → ℝ) (point : Vec3 ℝ)
    (normal view_direction : Option (Vec3 ℝ)) (material : Material ℝ)
    (color : Vec3 ℝ) (light : Light ℝ) :
    lightStep sqrt powf point normal view_direction material color light =
      color.add (lightStep sqrt powf point normal view_direction material ⟨0, 0, 0⟩ light) := by
  rw [lightStep_eq, lightStep_eq, specularStep_add, diffuseStep_add,
    specularStep_add sqrt powf point normal view_direction material
      (diffuseStep sqrt point normal material ⟨0, 0, 0⟩ light) light]
  ext <;> simp only [Vec3.add] <;> ring

theorem lightStep_comm (sqrt : ℝ → ℝ) (powf : ℝ → ℝ → ℝ) (point : Vec3 ℝ)
    (normal view_direction : Option (Vec3 ℝ)) (material : Material ℝ)
    (color : Vec3 ℝ) (l1 l2 : Light ℝ) :
    lightStep sqrt powf point normal view_direction material
        (lightStep sqrt powf point normal view_direction material color l1) l2 =
      lightStep sqrt powf point normal view_direction material
        (lightStep sqrt powf point normal view_direction material color l2) l1 := by
  rw [lightStep_add sqrt powf point normal view_direction material
      (lightStep sqrt powf point normal view_direction material color l1) l2,
    lightStep_add sqrt powf point normal view_direction material
      (lightStep sqrt powf point normal view_direction material color l2) l1,
    lightStep_add sqrt powf point normal view_direction material color l1,
    lightStep_add sqrt powf point normal view_direction material color l2]
  ext <;> simp only [Vec3.add] <;> ring

/-! ## Sphere intersection -/

/-- Exact-arithmetic reading of C1, with every `float` taken as a real number (no rounding; the
float program is treated in the float sections below): for a sphere of positive radius and a
ray of unit direction whose origin is strictly outside the sphere, with positive forward
projection `a` and perpendicular distance `d` below the radius, `Sphere.intersect` reports a
hit whose distance is the closer root `a - sqrt(radius^2 - d^2)`, whose intersection is the
origin plus the direction times that root, and the intersection is at distance `radius` from
the center. -/
theorem intersect_outside_closer_root (s : Sphere ℝ) (ray : Ray ℝ) (a d : ℝ)
    (hr : 0 < s.radius)
    (hunit : length Real.sqrt ray.direction = 1)
    (hout : length Real.sqrt (s.center.sub ray.origin) > s.radius)
    (ha : a = dot (s.center.sub ray.origin) ray.direction)
    (hapos : 0 < a)
    (hd : d = Real.sqrt ((length Real.sqrt (s.center.sub ray.origin)) ^ 2 - a ^ 2))
    (hdr : d < s.radius) :
    ∃ h : Hit ℝ, (s.intersect Real.sqrt ray).1 = some h ∧
      h.distance = a - Real.sqrt (s.radius ^ 2 - d ^ 2) ∧
      h.intersection =
        ray.origin.add (ray.direction.scale (a - Real.sqrt (s.radius ^ 2 - d ^ 2))) ∧
      length Real.sqrt (h.intersection.sub s.center) = s.radius := by
  have hdir := dot_self_of_unit hunit
  have hD := radicand_nonneg (s.center.sub ray.origin) ray.direction hdir
  rw [length_sq, ha] at hd
  have hd2 : d ^ 2 = dot (s.center.sub ray.origin) (s.center.sub ray.origin) -
      (dot (s.center.sub ray.origin) ray.direction) ^ 2 := by
    rw [hd]
    exact Real.sq_sqrt hD
  have hd0 : 0 ≤ d := by
    rw [hd]
    exact Real.sqrt_nonneg _
  have hcc : s.radius ^ 2 < dot (s.center.sub ray.origin) (s.center.sub ray.origin) :=
    (Real.lt_sqrt hr.le).mp hout
  have hb0 : 0 ≤ Real.sqrt (s.radius ^ 2 - d ^ 2) := Real.sqrt_nonneg _
  have hb2 : Real.sqrt (s.radius ^ 2 - d ^ 2) ^ 2 = s.radius ^ 2 - d ^ 2 :=
    Real.sq_sqrt (by nlinarith)
  have hba : Real.sqrt (s.radius ^ 2 - d ^ 2) < a := by
    by_contra hnot
    push_neg at hnot
    have h1 : a ^ 2 ≤ Real.sqrt (s.radius ^ 2 - d ^ 2) ^ 2 := by nlinarith
    rw [hb2, hd2, ← ha] at h1
    linarith
  have ht : closestT Real.sqrt (s.center.sub ray.origin) ray.direction s.radius =
      some (a - Real.sqrt (s.radius ^ 2 - d ^ 2)) := by
    rw [closestT_unit _ _ _ hdir, ← hd, ← hd2, ← ha]
    have h1 : ¬ (a - Real.sqrt (s.radius ^ 2 - d ^ 2) < 0 ∧
        0 < a + Real.sqrt (s.radius ^ 2 - d ^ 2)) := by
      intro hc
      linarith [hc.1]
    have h2 : a - Real.sqrt (s.radius ^ 2 - d ^ 2) ≥ 0 := by linarith
    have h3 : a + Real.sqrt (s.radius ^ 2 - d ^ 2) ≥ 0 := by linarith
    have h4 : ¬ (a + Real.sqrt (s.radius ^ 2 - d ^ 2) <
        a - Real.sqrt (s.radius ^ 2 - d ^ 2)) := by linarith
    rw [if_neg (ne_of_lt hdr), if_pos hdr, if_neg h1, if_pos h2, if_pos h3]
    simp only [fmin, if_neg h4]
  refine ⟨s.fillHit Real.sqrt ray (a - Real.sqrt (s.radius ^ 2 - d ^ 2)), ?_, ?_, ?_, ?_⟩
  · rw [intersect_fst, ht]
    rfl
  · rw [fillHit_distance s ray _ hdir]
    exact abs_of_pos (by linarith)
  · exact fillHit_intersection s ray _
  · exact fillHit_on_sphere s ray _ hr.le hdir ht

/-- Exact-arithmetic reading of C1 (no rounding), at the sphere of radius 1 centered at (0,0,3)
and the ray from the world origin along +z: `a = 3`, `d = 0`. -/
theorem intersect_outside_closer_root_witness :
    ∃ h : Hit ℝ,
      (Sphere.intersect Real.sqrt
        (⟨⟨0, 0, 0⟩, ⟨⟨0, 0, 0⟩, ⟨1, 1, 1⟩, ⟨0, 0, 0⟩, 0⟩, 1, ⟨0, 0, 3⟩⟩ : Sphere ℝ)
        ⟨⟨0, 0, 0⟩, ⟨0, 0, 1⟩⟩).1 = some h ∧
      h.distance = 3 - Real.sqrt ((1 : ℝ) ^ 2 - 0 ^ 2) ∧
      h.intersection =
        (⟨0, 0, 0⟩ : Vec3 ℝ).add
          ((⟨0, 0, 1⟩ : Vec3 ℝ).scale (3 - Real.sqrt ((1 : ℝ) ^ 2 - 0 ^ 2))) ∧
      length Real.sqrt (h.intersection.sub ⟨0, 0, 3⟩) = 1 :=
  intersect_outside_closer_root
    ⟨⟨0, 0, 0⟩, ⟨⟨0, 0, 0⟩, ⟨1, 1, 1⟩, ⟨0, 0, 0⟩, 0⟩, 1, ⟨0, 0, 3⟩⟩ ⟨⟨0, 0, 0⟩, ⟨0, 0, 1⟩⟩ 3 0
    (by norm_num)
    (by simp [length, dot])
    (by
      have e : length Real.sqrt ((⟨0, 0, 3⟩ : Vec3 ℝ).sub ⟨0, 0, 0⟩) = 3 := by
        simp only [length, dot, Vec3.sub]
        rw [show (0 - 0 : ℝ) * (0 - 0) + (0 - 0) * (0 - 0) + (3 - 0) * (3 - 0) = 3 ^ 2 by
          norm_num]
        exact Real.sqrt_sq (by norm_num)
      show length Real.sqrt ((⟨0, 0, 3⟩ : Vec3 ℝ).sub ⟨0, 0, 0⟩) > 1
      rw [e]
      norm_num)
    (by simp [dot, Vec3.sub])
    (by norm_num)
    (by
      have e : length Real.sqrt ((⟨0, 0, 3⟩ : Vec3 ℝ).sub ⟨0, 0, 0⟩) = 3 := by
        simp only [length, dot, Vec3.sub]
        rw [show (0 - 0 : ℝ) * (0 - 0) + (0 - 0) * (0 - 0) + (3 - 0) * (3 - 0) = 3 ^ 2 by
          norm_num]
        exact Real.sqrt_sq (by norm_num)
      show (0 : ℝ) = Real.sqrt
        ((length Real.sqrt ((⟨0, 0, 3⟩ : Vec3 ℝ).sub ⟨0, 0, 0⟩)) ^ 2 - 3 ^ 2)
      rw [e]
      norm_num)
    (by norm_num)

/-- Exact-arithmetic reading of C2, with every `float` taken as a real number (no rounding; the
float program is treated in the float sections below): for a ray of unit direction whose
line passes the center of the sphere at a perpendicular distance `d` greater than the
radius, `Sphere.intersect` reports no hit. -/
theorem intersect_miss (s : Sphere ℝ) (ray : Ray ℝ) (d : ℝ)
    (hunit : length Real.sqrt ray.direction = 1)
    (hd : d = Real.sqrt ((length Real.sqrt (s.center.sub ray.origin)) ^ 2 -
      (dot (s.center.sub ray.origin) ray.direction) ^ 2))
    (hdr : d > s.radius) :
    (s.intersect Real.sqrt ray).1 = none := by
  have hdir := dot_self_of_unit hunit
  rw [length_sq] at hd
  rw [intersect_fst, closestT_unit _ _ _ hdir, ← hd, if_neg (ne_of_gt hdr),
    if_neg (not_lt_of_gt hdr)]
  rfl

/-- Exact-arithmetic reading of C2 (no rounding), at the sphere of radius 1 centered at (2,0,3)
and the ray from the world origin along +z: `d = 2`. -/
theorem intersect_miss_witness :
    (Sphere.intersect Real.sqrt
      (⟨⟨0, 0, 0⟩, ⟨⟨0, 0, 0⟩, ⟨1, 1, 1⟩, ⟨0, 0, 0⟩, 0⟩, 1, ⟨2, 0, 3⟩⟩ : Sphere ℝ)
      ⟨⟨0, 0, 0⟩, ⟨0, 0, 1⟩⟩).1 = none :=
  intersect_miss
    ⟨⟨0, 0, 0⟩, ⟨⟨0, 0, 0⟩, ⟨1, 1, 1⟩, ⟨0, 0, 0⟩, 0⟩, 1, ⟨2, 0, 3⟩⟩ ⟨⟨0, 0, 0⟩, ⟨0, 0, 1⟩⟩ 2
    (by simp [length, dot])
    (by
      rw [length_sq]
      exact (sqrt_of_eq_sq (by norm_num) (by simp [dot, Vec3.sub]; norm_num)).symm)
    (by norm_num)

/-- Exact-arithmetic reading of C10 (tangent case), with every `float` taken as a real number
(no rounding; the float program is treated in the float sections below): for a sphere of
positive radius and a ray of unit direction with `d` equal to the radius exactly,
`Sphere.intersect` reports a hit at the single root `a`: the intersection is the origin plus
the direction times `a`, at distance `radius` from the center. -/
theorem intersect_tangent (s : Sphere ℝ) (ray : Ray ℝ) (a d : ℝ)
    (hr : 0 < s.radius)
    (hunit : length Real.sqrt ray.direction = 1)
    (ha : a = dot (s.center.sub ray.origin) ray.direction)
    (hd : d = Real.sqrt ((length Real.sqrt (s.center.sub ray.origin)) ^ 2 - a ^ 2))
    (hdr : d = s.radius) :
    ∃ h : Hit ℝ, (s.intersect Real.sqrt ray).1 = some h ∧
      h.intersection = ray.origin.add (ray.direction.scale a) ∧
      length Real.sqrt (h.intersection.sub s.center) = s.radius := by
  have hdir := dot_self_of_unit hunit
  rw [length_sq, ha] at hd
  have ht : closestT Real.sqrt (s.center.sub ray.origin) ray.direction s.radius = some a := by
    rw [closestT_unit _ _ _ hdir, ← hd, if_pos hdr, ha]
  exact ⟨s.fillHit Real.sqrt ray a, intersect_of_closestT s ray a ht,
    fillHit_intersection s ray a, fillHit_on_sphere s ray a hr.le hdir ht⟩

/-- Exact-arithmetic reading of C10 (no rounding), at the sphere of radius 3 centered at (3,0,4)
and the ray from the world origin along +z: `a = 4`, `d = 3`. -/
theorem intersect_tangent_witness :
    ∃ h : Hit ℝ,
      (Sphere.intersect Real.sqrt
        (⟨⟨0, 0, 0⟩, ⟨⟨0, 0, 0⟩, ⟨1, 1, 1⟩, ⟨0, 0, 0⟩, 0⟩, 3, ⟨3, 0, 4⟩⟩ : Sphere ℝ)
        ⟨⟨0, 0, 0⟩, ⟨0, 0, 1⟩⟩).1 = some h ∧
      h.intersection = (⟨0, 0, 0⟩ : Vec3 ℝ).add ((⟨0, 0, 1⟩ : Vec3 ℝ).scale 4) ∧
      length Real.sqrt (h.intersection.sub ⟨3, 0, 4⟩) = 3 :=
  intersect_tangent
    ⟨⟨0, 0, 0⟩, ⟨⟨0, 0, 0⟩, ⟨1, 1, 1⟩, ⟨0, 0, 0⟩, 0⟩, 3, ⟨3, 0, 4⟩⟩ ⟨⟨0, 0, 0⟩, ⟨0, 0, 1⟩⟩ 4 3
    (by norm_num)
    (by simp [length, dot])
    (by simp [dot, Vec3.sub])
    (by
      rw [length_sq]
      exact (sqrt_of_eq_sq (by norm_num) (by simp [dot, Vec3.sub]; norm_num)).symm)
    rfl

/-- Exact-arithmetic reading of C4 (hit invariant), with every `float` taken as a real number
(no rounding; the float program is treated in the float sections below): for a sphere of
positive radius and a ray of unit direction, a hit reported by `Sphere.intersect` has a
non-negative `distance` equal to the Euclidean distance from the ray origin to
`intersection`, its `intersection` is at distance `radius` from the center, and its `normal`
is `(intersection - center) / radius`, of length 1. -/
theorem hit_invariant (s : Sphere ℝ) (ray : Ray ℝ) (h : Hit ℝ)
    (hr : 0 < s.radius)
    (hunit : length Real.sqrt ray.direction = 1)
    (hh : (s.intersect Real.sqrt ray).1 = some h) :
    0 ≤ h.distance ∧
      h.distance = length Real.sqrt (h.intersection.sub ray.origin) ∧
      length Real.sqrt (h.intersection.sub s.center) = s.radius ∧
      ∃ n : Vec3 ℝ, h.normal = some n ∧
        n = ⟨(h.intersection.x - s.center.x) / s.radius,
          (h.intersection.y - s.center.y) / s.radius,
          (h.intersection.z - s.center.z) / s.radius⟩ ∧
        length Real.sqrt n = 1 := by
  have hdir := dot_self_of_unit hunit
  obtain ⟨t, ht, rfl⟩ := intersect_some s ray h hh
  have hdot := fillHit_dot_center s ray t hdir ht
  refine ⟨?_, rfl, fillHit_on_sphere s ray t hr.le hdir ht, ?_⟩
  · rw [fillHit_distance s ray t hdir]
    exact abs_nonneg t
  · exact ⟨_, normalize_of_dot_eq_sq _ s.radius hr hdot, rfl,
      length_div_of_dot_eq_sq _ s.radius hr hdot⟩

/-- Exact-arithmetic reading of C4 (no rounding), at the sphere of radius 1 centered at (0,0,3)
and the ray from the world origin along +z, whose hit is the one filled in for `closest_t = 2`. -/
theorem hit_invariant_witness :
    0 ≤ (Sphere.fillHit Real.sqrt
        (⟨⟨0, 0, 0⟩, ⟨⟨0, 0, 0⟩, ⟨1, 1, 1⟩, ⟨0, 0, 0⟩, 0⟩, 1, ⟨0, 0, 3⟩⟩ : Sphere ℝ)
        ⟨⟨0, 0, 0⟩, ⟨0, 0, 1⟩⟩ 2).distance ∧
      (Sphere.fillHit Real.sqrt
        (⟨⟨0, 0, 0⟩, ⟨⟨0, 0, 0⟩, ⟨1, 1, 1⟩, ⟨0, 0, 0⟩, 0⟩, 1, ⟨0, 0, 3⟩⟩ : Sphere ℝ)
        ⟨⟨0, 0, 0⟩, ⟨0, 0, 1⟩⟩ 2).normal = some ⟨0, 0, -1⟩ := by
  obtain ⟨h0, -, -, n, hn, hn2, -⟩ := hit_invariant
    ⟨⟨0, 0, 0⟩, ⟨⟨0, 0, 0⟩, ⟨1, 1, 1⟩, ⟨0, 0, 0⟩, 0⟩, 1, ⟨0, 0, 3⟩⟩ ⟨⟨0, 0, 0⟩, ⟨0, 0, 1⟩⟩
    (Sphere.fillHit Real.sqrt
      (⟨⟨0, 0, 0⟩, ⟨⟨0, 0, 0⟩, ⟨1, 1, 1⟩, ⟨0, 0, 0⟩, 0⟩, 1, ⟨0, 0, 3⟩⟩ : Sphere ℝ)
      ⟨⟨0, 0, 0⟩, ⟨0, 0, 1⟩⟩ 2)
    (by norm_num)
    (by simp [length, dot])
    (intersect_of_closestT _ _ 2 closestT_front)
  refine ⟨h0, ?_⟩
  rw [hn, hn2]
  simp [Sphere.fillHit, Vec3.add, Vec3.scale]
  norm_num

/-- C3 at its failing input: for the sphere of radius 3 centered at (3,0,-4) and the
ray from the world origin along +z (unit direction), `Sphere.intersect` reports a hit
at (0,0,-4) with distance 4; the reported intersection is not `origin + t * direction`
for any `t ≥ 0`, and no point `origin + t * direction` with `t ≥ 0` lies on the sphere. -/
theorem intersect_tangent_behind_hits :
    (∃ h : Hit ℝ,
      (Sphere.intersect Real.sqrt
        (⟨⟨0, 0, 0⟩, ⟨⟨0, 0, 0⟩, ⟨1, 1, 1⟩, ⟨0, 0, 0⟩, 0⟩, 3, ⟨3, 0, -4⟩⟩ : Sphere ℝ)
        ⟨⟨0, 0, 0⟩, ⟨0, 0, 1⟩⟩).1 = some h ∧
      h.intersection = ⟨0, 0, -4⟩ ∧ h.distance = 4 ∧
      ¬ ∃ t : ℝ, 0 ≤ t ∧
        h.intersection = (⟨0, 0, 0⟩ : Vec3 ℝ).add ((⟨0, 0, 1⟩ : Vec3 ℝ).scale t)) ∧
    ¬ ∃ t : ℝ, 0 ≤ t ∧
      length Real.sqrt
        (((⟨0, 0, 0⟩ : Vec3 ℝ).add ((⟨0, 0, 1⟩ : Vec3 ℝ).scale t)).sub ⟨3, 0, -4⟩) = 3 := by
  constructor
  · refine ⟨_, intersect_of_closestT _ _ (-4) closestT_behind, ?_, ?_, ?_⟩
    · simp [Sphere.fillHit, Vec3.add, Vec3.scale]
    · rw [fillHit_distance _ _ _ (by simp [dot])]
      norm_num
    · rintro ⟨t, ht, e⟩
      have hz := congrArg Vec3.z e
      simp [Sphere.fillHit, Vec3.add, Vec3.scale] at hz
      linarith
  · rintro ⟨t, ht, hlen⟩
    unfold length at hlen
    rw [Real.sqrt_eq_iff_mul_self_eq_of_pos (by norm_num)] at hlen
    simp only [dot, Vec3.sub, Vec3.add, Vec3.scale] at hlen
    nlinarith

/-! ## Nearest hit (`trace_ray`) -/

/-- C5: when at least one object of the list is hit, `trace_ray` shades the hit of an
object `o` of the list (the list is `pre ++ o :: post`): every hit of an object before
`o` is strictly farther, every hit of an object after `o` is at least as far, so `o`
has the minimum distance and is the first in iteration order to have it; the color
returned is `PhongModel` at that hit with the material of `o`. -/
theorem trace_ray_nearest_hit (powf : ℝ → ℝ → ℝ) (objects : List (Sphere ℝ))
    (lights : List (Light ℝ)) (ambient_light : Vec3 ℝ) (ray : Ray ℝ)
    (hex : ∃ o ∈ objects, ∃ h0, (o.intersect Real.sqrt ray).1 = some h0) :
    ∃ pre o post h, objects = pre ++ o :: post ∧
      (o.intersect Real.sqrt ray).1 = some h ∧ h.object = o ∧
      closestHit Real.sqrt objects ray = some h ∧
      trace_ray Real.sqrt powf objects lights ambient_light ray =
        PhongModel Real.sqrt powf lights ambient_light h.intersection h.normal
          (normalize Real.sqrt ray.direction.neg) o.material ∧
      (∀ p ∈ pre, ∀ hp, (p.intersect Real.sqrt ray).1 = some hp →
        h.distance < hp.distance) ∧
      (∀ q ∈ post, ∀ hq, (q.intersect Real.sqrt ray).1 = some hq →
        h.distance ≤ hq.distance) := by
  rcases foldl_keepCloser (fun o : Sphere ℝ => (o.intersect Real.sqrt ray).1) objects none with
    ⟨-, h2⟩ | ⟨pre, o, post, h, e, ho, hr, -, hpre, hpost⟩
  · obtain ⟨o, hmem, h0, hh0⟩ := hex
    obtain ⟨c, hc, -⟩ := h2 o hmem h0 hh0
    exact absurd hc (by simp)
  · have hobj : h.object = o := by
      obtain ⟨t, -, ht⟩ := intersect_some o ray h ho
      rw [← ht]
      rfl
    have hc : closestHit Real.sqrt objects ray = some h := hr
    refine ⟨pre, o, post, h, e, ho, hobj, hc, ?_, hpre, hpost⟩
    unfold trace_ray
    rw [hc]
    simp only [hobj]

/-- C5 at a list of three spheres of radius 1 that the ray from the world origin
along +z hits: the first, centered at (0,0,5), at distance 4; the second and the third,
both centered at (0,0,3) and of different materials, at distance 2.  `closest_hit` is
the hit of the second sphere (not of the third, which ties with it, nor of the first,
which is farther), and the color is `PhongModel` with the material of the second. -/
theorem trace_ray_nearest_hit_witness :
    ((⟨⟨0, 0, 0⟩, ⟨⟨0, 0, 0⟩, ⟨1, 1, 1⟩, ⟨0, 0, 0⟩, 0⟩, 1, ⟨0, 0, 5⟩⟩ : Sphere ℝ).intersect Real.sqrt
        ⟨⟨0, 0, 0⟩, ⟨0, 0, 1⟩⟩).1 =
        some ((⟨⟨0, 0, 0⟩, ⟨⟨0, 0, 0⟩, ⟨1, 1, 1⟩, ⟨0, 0, 0⟩, 0⟩, 1, ⟨0, 0, 5⟩⟩ : Sphere ℝ).fillHit Real.sqrt
        ⟨⟨0, 0, 0⟩, ⟨0, 0, 1⟩⟩ 4) ∧
    ((⟨⟨0, 0, 0⟩, ⟨⟨0, 0, 0⟩, ⟨1, 1, 1⟩, ⟨0, 0, 0⟩, 0⟩, 1, ⟨0, 0, 5⟩⟩ : Sphere ℝ).fillHit Real.sqrt
        ⟨⟨0, 0, 0⟩, ⟨0, 0, 1⟩⟩ 4).distance = 4 ∧
    ((⟨⟨0, 0, 0⟩, ⟨⟨1, 0, 0⟩, ⟨1, 1, 1⟩, ⟨0, 0, 0⟩, 0⟩, 1, ⟨0, 0, 3⟩⟩ : Sphere ℝ).intersect Real.sqrt
        ⟨⟨0, 0, 0⟩, ⟨0, 0, 1⟩⟩).1 =
        some ((⟨⟨0, 0, 0⟩, ⟨⟨1, 0, 0⟩, ⟨1, 1, 1⟩, ⟨0, 0, 0⟩, 0⟩, 1, ⟨0, 0, 3⟩⟩ : Sphere ℝ).fillHit Real.sqrt
        ⟨⟨0, 0, 0⟩, ⟨0, 0, 1⟩⟩ 2) ∧
    ((⟨⟨0, 0, 0⟩, ⟨⟨1, 0, 0⟩, ⟨1, 1, 1⟩, ⟨0, 0, 0⟩, 0⟩, 1, ⟨0, 0, 3⟩⟩ : Sphere ℝ).fillHit Real.sqrt
        ⟨⟨0, 0, 0⟩, ⟨0, 0, 1⟩⟩ 2).distance = 2 ∧
    ((⟨⟨0, 0, 0⟩, ⟨⟨0, 1, 0⟩, ⟨1, 1, 1⟩, ⟨0, 0, 0⟩, 0⟩, 1, ⟨0, 0, 3⟩⟩ : Sphere ℝ).intersect Real.sqrt
        ⟨⟨0, 0, 0⟩, ⟨0, 0, 1⟩⟩).1 =
        some ((⟨⟨0, 0, 0⟩, ⟨⟨0, 1, 0⟩, ⟨1, 1, 1⟩, ⟨0, 0, 0⟩, 0⟩, 1, ⟨0, 0, 3⟩⟩ : Sphere ℝ).fillHit Real.sqrt
        ⟨⟨0, 0, 0⟩, ⟨0, 0, 1⟩⟩ 2) ∧
    ((⟨⟨0, 0, 0⟩, ⟨⟨0, 1, 0⟩, ⟨1, 1, 1⟩, ⟨0, 0, 0⟩, 0⟩, 1, ⟨0, 0, 3⟩⟩ : Sphere ℝ).fillHit Real.sqrt
        ⟨⟨0, 0, 0⟩, ⟨0, 0, 1⟩⟩ 2).distance = 2 ∧
    ((⟨⟨0, 0, 0⟩, ⟨⟨1, 0, 0⟩, ⟨1, 1, 1⟩, ⟨0, 0, 0⟩, 0⟩, 1, ⟨0, 0, 3⟩⟩ : Sphere ℝ).fillHit Real.sqrt
        ⟨⟨0, 0, 0⟩, ⟨0, 0, 1⟩⟩ 2) ≠
      ((⟨⟨0, 0, 0⟩, ⟨⟨0, 1, 0⟩, ⟨1, 1, 1⟩, ⟨0, 0, 0⟩, 0⟩, 1, ⟨0, 0, 3⟩⟩ : Sphere ℝ).fillHit Real.sqrt
        ⟨⟨0, 0, 0⟩, ⟨0, 0, 1⟩⟩ 2) ∧
    closestHit Real.sqrt
        ([⟨⟨0, 0, 0⟩, ⟨⟨0, 0, 0⟩, ⟨1, 1, 1⟩, ⟨0, 0, 0⟩, 0⟩, 1, ⟨0, 0, 5⟩⟩,
          ⟨⟨0, 0, 0⟩, ⟨⟨1, 0, 0⟩, ⟨1, 1, 1⟩, ⟨0, 0, 0⟩, 0⟩, 1, ⟨0, 0, 3⟩⟩,
          ⟨⟨0, 0, 0⟩, ⟨⟨0, 1, 0⟩, ⟨1, 1, 1⟩, ⟨0, 0, 0⟩, 0⟩, 1, ⟨0, 0, 3⟩⟩] : List (Sphere ℝ))
        ⟨⟨0, 0, 0⟩, ⟨0, 0, 1⟩⟩ =
      some ((⟨⟨0, 0, 0⟩, ⟨⟨1, 0, 0⟩, ⟨1, 1, 1⟩, ⟨0, 0, 0⟩, 0⟩, 1, ⟨0, 0, 3⟩⟩ : Sphere ℝ).fillHit Real.sqrt
        ⟨⟨0, 0, 0⟩, ⟨0, 0, 1⟩⟩ 2) ∧
    trace_ray Real.sqrt Real.rpow
        ([⟨⟨0, 0, 0⟩, ⟨⟨0, 0, 0⟩, ⟨1, 1, 1⟩, ⟨0, 0, 0⟩, 0⟩, 1, ⟨0, 0, 5⟩⟩,
          ⟨⟨0, 0, 0⟩, ⟨⟨1, 0, 0⟩, ⟨1, 1, 1⟩, ⟨0, 0, 0⟩, 0⟩, 1, ⟨0, 0, 3⟩⟩,
          ⟨⟨0, 0, 0⟩, ⟨⟨0, 1, 0⟩, ⟨1, 1, 1⟩, ⟨0, 0, 0⟩, 0⟩, 1, ⟨0, 0, 3⟩⟩] : List (Sphere ℝ))
        [⟨⟨0, 5, 3⟩, ⟨1, 1, 1⟩⟩] ⟨1, 1, 1⟩ ⟨⟨0, 0, 0⟩, ⟨0, 0, 1⟩⟩ =
      PhongModel Real.sqrt Real.rpow [⟨⟨0, 5, 3⟩, ⟨1, 1, 1⟩⟩] ⟨1, 1, 1⟩
        ((⟨⟨0, 0, 0⟩, ⟨⟨1, 0, 0⟩, ⟨1, 1, 1⟩, ⟨0, 0, 0⟩, 0⟩, 1, ⟨0, 0, 3⟩⟩ : Sphere ℝ).fillHit Real.sqrt
        ⟨⟨0, 0, 0⟩, ⟨0, 0, 1⟩⟩ 2).intersection
        ((⟨⟨0, 0, 0⟩, ⟨⟨1, 0, 0⟩, ⟨1, 1, 1⟩, ⟨0, 0, 0⟩, 0⟩, 1, ⟨0, 0, 3⟩⟩ : Sphere ℝ).fillHit Real.sqrt
        ⟨⟨0, 0, 0⟩, ⟨0, 0, 1⟩⟩ 2).normal
        (normalize Real.sqrt (⟨0, 0, 1⟩ : Vec3 ℝ).neg)
        ⟨⟨1, 0, 0⟩, ⟨1, 1, 1⟩, ⟨0, 0, 0⟩, 0⟩ := by
  have hS := intersect_of_closestT (⟨⟨0, 0, 0⟩, ⟨⟨0, 0, 0⟩, ⟨1, 1, 1⟩, ⟨0, 0, 0⟩, 0⟩, 1, ⟨0, 0, 5⟩⟩ : Sphere ℝ)
    ⟨⟨0, 0, 0⟩, ⟨0, 0, 1⟩⟩ 4 closestT_far
  have hA := intersect_of_closestT (⟨⟨0, 0, 0⟩, ⟨⟨1, 0, 0⟩, ⟨1, 1, 1⟩, ⟨0, 0, 0⟩, 0⟩, 1, ⟨0, 0, 3⟩⟩ : Sphere ℝ)
    ⟨⟨0, 0, 0⟩, ⟨0, 0, 1⟩⟩ 2 closestT_front
  have hB := intersect_of_closestT (⟨⟨0, 0, 0⟩, ⟨⟨0, 1, 0⟩, ⟨1, 1, 1⟩, ⟨0, 0, 0⟩, 0⟩, 1, ⟨0, 0, 3⟩⟩ : Sphere ℝ)
    ⟨⟨0, 0, 0⟩, ⟨0, 0, 1⟩⟩ 2 closestT_front
  have dS : ((⟨⟨0, 0, 0⟩, ⟨⟨0, 0, 0⟩, ⟨1, 1, 1⟩, ⟨0, 0, 0⟩, 0⟩, 1, ⟨0, 0, 5⟩⟩ : Sphere ℝ).fillHit Real.sqrt
        ⟨⟨0, 0, 0⟩, ⟨0, 0, 1⟩⟩ 4).distance = 4 := by
    rw [fillHit_distance _ _ _ (by simp [dot])]
    norm_num
  have dA : ((⟨⟨0, 0, 0⟩, ⟨⟨1, 0, 0⟩, ⟨1, 1, 1⟩, ⟨0, 0, 0⟩, 0⟩, 1, ⟨0, 0, 3⟩⟩ : Sphere ℝ).fillHit Real.sqrt
        ⟨⟨0, 0, 0⟩, ⟨0, 0, 1⟩⟩ 2).distance = 2 := by
    rw [fillHit_distance _ _ _ (by simp [dot])]
    norm_num
  have dB : ((⟨⟨0, 0, 0⟩, ⟨⟨0, 1, 0⟩, ⟨1, 1, 1⟩, ⟨0, 0, 0⟩, 0⟩, 1, ⟨0, 0, 3⟩⟩ : Sphere ℝ).fillHit Real.sqrt
        ⟨⟨0, 0, 0⟩, ⟨0, 0, 1⟩⟩ 2).distance = 2 := by
    rw [fillHit_distance _ _ _ (by simp [dot])]
    norm_num
  have hne : ((⟨⟨0, 0, 0⟩, ⟨⟨1, 0, 0⟩, ⟨1, 1, 1⟩, ⟨0, 0, 0⟩, 0⟩, 1, ⟨0, 0, 3⟩⟩ : Sphere ℝ).fillHit Real.sqrt
        ⟨⟨0, 0, 0⟩, ⟨0, 0, 1⟩⟩ 2) ≠
      ((⟨⟨0, 0, 0⟩, ⟨⟨0, 1, 0⟩, ⟨1, 1, 1⟩, ⟨0, 0, 0⟩, 0⟩, 1, ⟨0, 0, 3⟩⟩ : Sphere ℝ).fillHit Real.sqrt
        ⟨⟨0, 0, 0⟩, ⟨0, 0, 1⟩⟩ 2) := by
    intro hcon
    have h1 := congrArg (fun x : Hit ℝ => x.object.material.ambient.x) hcon
    simp [Sphere.fillHit] at h1
  obtain ⟨pre, o, post, h, e, ho, hobj, hc, htr, hpre, hpost⟩ :=
    trace_ray_nearest_hit Real.rpow
      [⟨⟨0, 0, 0⟩, ⟨⟨0, 0, 0⟩, ⟨1, 1, 1⟩, ⟨0, 0, 0⟩, 0⟩, 1, ⟨0, 0, 5⟩⟩,
        ⟨⟨0, 0, 0⟩, ⟨⟨1, 0, 0⟩, ⟨1, 1, 1⟩, ⟨0, 0, 0⟩, 0⟩, 1, ⟨0, 0, 3⟩⟩,
        ⟨⟨0, 0, 0⟩, ⟨⟨0, 1, 0⟩, ⟨1, 1, 1⟩, ⟨0, 0, 0⟩, 0⟩, 1, ⟨0, 0, 3⟩⟩]
      [⟨⟨0, 5, 3⟩, ⟨1, 1, 1⟩⟩] ⟨1, 1, 1⟩ ⟨⟨0, 0, 0⟩, ⟨0, 0, 1⟩⟩
      ⟨⟨⟨0, 0, 0⟩, ⟨⟨1, 0, 0⟩, ⟨1, 1, 1⟩, ⟨0, 0, 0⟩, 0⟩, 1, ⟨0, 0, 3⟩⟩, by simp, _, hA⟩
  have hsel : pre = [⟨⟨0, 0, 0⟩, ⟨⟨0, 0, 0⟩, ⟨1, 1, 1⟩, ⟨0, 0, 0⟩, 0⟩, 1, ⟨0, 0, 5⟩⟩] ∧
      o = ⟨⟨0, 0, 0⟩, ⟨⟨1, 0, 0⟩, ⟨1, 1, 1⟩, ⟨0, 0, 0⟩, 0⟩, 1, ⟨0, 0, 3⟩⟩ := by
    match pre, e, hpre with
    | [], e, _ =>
      exfalso
      simp only [List.nil_append, List.cons.injEq] at e
      obtain ⟨e1, e2⟩ := e
      rw [← e1, hS] at ho
      have hle := hpost _ (by rw [← e2]; simp) _ hA
      rw [← Option.some.inj ho, dS, dA] at hle
      norm_num at hle
    | [p], e, _ =>
      simp only [List.singleton_append, List.cons.injEq] at e
      exact ⟨by rw [e.1], e.2.1.symm⟩
    | [p, q], e, hpre =>
      exfalso
      simp only [List.cons_append, List.nil_append, List.cons.injEq] at e
      obtain ⟨-, e2, e3, -⟩ := e
      rw [← e3, hB] at ho
      have hlt := hpre q (by simp) _ (by rw [← e2]; exact hA)
      rw [← Option.some.inj ho, dB, dA] at hlt
      exact lt_irrefl _ hlt
    | p :: q :: r :: rest, e, _ =>
      exfalso
      have hlen := congrArg List.length e
      simp at hlen
  obtain ⟨-, e2⟩ := hsel
  rw [e2, hA] at ho
  have hh := Option.some.inj ho
  rw [← hh, e2] at htr
  rw [← hh] at hc
  exact ⟨hS, dS, hA, dA, hB, dB, hne, hc, htr⟩

/-- C6: when no object of the list is hit, `trace_ray` returns black `(0,0,0)`,
whatever the lights and the ambient term; so it does for the empty object list. -/
theorem trace_ray_no_hit (powf : ℝ → ℝ → ℝ) (objects : List (Sphere ℝ))
    (lights : List (Light ℝ)) (ambient_light : Vec3 ℝ) (ray : Ray ℝ)
    (hno : ∀ o ∈ objects, (o.intersect Real.sqrt ray).1 = none) :
    trace_ray Real.sqrt powf objects lights ambient_light ray = ⟨0, 0, 0⟩ ∧
      trace_ray Real.sqrt powf [] lights ambient_light ray = ⟨0, 0, 0⟩ := by
  constructor
  · rcases foldl_keepCloser (fun o : Sphere ℝ => (o.intersect Real.sqrt ray).1) objects none
      with ⟨h1, -⟩ | ⟨pre, o, post, h, e, ho, -, -, -, -⟩
    · have hc : closestHit Real.sqrt objects ray = none := h1
      unfold trace_ray
      rw [hc]
    · have hmem : o ∈ objects := by
        rw [e]
        simp
      rw [hno o hmem] at ho
      exact absurd ho (by simp)
  · rfl

/-- C6 at the one-object list of the sphere of radius 1 at (2,0,3), which the ray from
the world origin along +z misses, with one white light and white ambient light. -/
theorem trace_ray_no_hit_witness :
    trace_ray Real.sqrt Real.rpow
        [(⟨⟨0, 0, 0⟩, ⟨⟨1, 1, 1⟩, ⟨1, 1, 1⟩, ⟨1, 1, 1⟩, 0⟩, 1, ⟨2, 0, 3⟩⟩ : Sphere ℝ)]
        [⟨⟨0, 5, 3⟩, ⟨1, 1, 1⟩⟩] ⟨1, 1, 1⟩ ⟨⟨0, 0, 0⟩, ⟨0, 0, 1⟩⟩ = ⟨0, 0, 0⟩ ∧
      trace_ray Real.sqrt Real.rpow [] [⟨⟨0, 5, 3⟩, ⟨1, 1, 1⟩⟩] ⟨1, 1, 1⟩
        ⟨⟨0, 0, 0⟩, ⟨0, 0, 1⟩⟩ = ⟨0, 0, 0⟩ :=
  trace_ray_no_hit Real.rpow
    [⟨⟨0, 0, 0⟩, ⟨⟨1, 1, 1⟩, ⟨1, 1, 1⟩, ⟨1, 1, 1⟩, 0⟩, 1, ⟨2, 0, 3⟩⟩]
    [⟨⟨0, 5, 3⟩, ⟨1, 1, 1⟩⟩] ⟨1, 1, 1⟩ ⟨⟨0, 0, 0⟩, ⟨0, 0, 1⟩⟩
    (by
      intro o ho
      rw [List.mem_singleton.mp ho]
      exact intersect_of_closestT_none _ _ closestT_side)

/-! ## Shading (`PhongModel`) -/

/-- Exact-arithmetic reading of C7, with every `float` taken as a real number (no rounding; the
float program is treated in the float sections below): every channel of the color returned
by `PhongModel` lies in `[0,1]`, for every point, normal, view direction (either possibly
the NaN vector), material, ambient light and list of lights. -/
theorem PhongModel_bounded (sqrt : ℝ → ℝ) (powf : ℝ → ℝ → ℝ) (lights : List (Light ℝ))
    (ambient_light point : Vec3 ℝ) (normal view_direction : Option (Vec3 ℝ))
    (material : Material ℝ) :
    (0 ≤ (PhongModel sqrt powf lights ambient_light point normal view_direction material).x ∧
      (PhongModel sqrt powf lights ambient_light point normal view_direction material).x ≤ 1) ∧
    (0 ≤ (PhongModel sqrt powf lights ambient_light point normal view_direction material).y ∧
      (PhongModel sqrt powf lights ambient_light point normal view_direction material).y ≤ 1) ∧
    (0 ≤ (PhongModel sqrt powf lights ambient_light point normal view_direction material).z ∧
      (PhongModel sqrt powf lights ambient_light point normal view_direction material).z ≤ 1) := by
  unfold PhongModel
  exact ⟨clamp_unit_bounds _, clamp_unit_bounds _, clamp_unit_bounds _⟩

/-- C8: with an empty light list `PhongModel` returns the component-wise product
`material.ambient * ambient_light` with each channel clamped to `[0,1]`. -/
theorem PhongModel_no_lights (sqrt : ℝ → ℝ) (powf : ℝ → ℝ → ℝ)
    (ambient_light point : Vec3 ℝ) (normal view_direction : Option (Vec3 ℝ))
    (material : Material ℝ) :
    PhongModel sqrt powf [] ambient_light point normal view_direction material =
      ⟨clamp (material.ambient.x * ambient_light.x) 0 1,
        clamp (material.ambient.y * ambient_light.y) 0 1,
        clamp (material.ambient.z * ambient_light.z) 0 1⟩ := by
  simp [PhongModel, Vec3.clamp, Vec3.add, Vec3.mul, Vec3.splat]

/-- C9 as stated fails: at the world origin with unit normal (0,0,1), unit view
direction (-4/5,0,3/5), the material `redMaterial` of the scene, white ambient light
and the light at (4,0,-3) of color 0.4, the light direction (4/5,0,-3/5) has
`dot(normal, light_direction) = -3/5 <= 0`, yet `PhongModel` with that light differs
from `PhongModel` with no lights (the specular term is added). -/
theorem PhongModel_backface_specular_leak :
    length Real.sqrt (⟨0, 0, 1⟩ : Vec3 ℝ) = 1 ∧
    length Real.sqrt (⟨-4 / 5, 0, 3 / 5⟩ : Vec3 ℝ) = 1 ∧
    normalize Real.sqrt ((⟨4, 0, -3⟩ : Vec3 ℝ).sub ⟨0, 0, 0⟩) = some ⟨4 / 5, 0, -3 / 5⟩ ∧
    dot (⟨0, 0, 1⟩ : Vec3 ℝ) ⟨4 / 5, 0, -3 / 5⟩ ≤ 0 ∧
    PhongModel Real.sqrt Real.rpow [⟨⟨4, 0, -3⟩, ⟨4 / 10, 4 / 10, 4 / 10⟩⟩] ⟨1, 1, 1⟩ ⟨0, 0, 0⟩
        (some ⟨0, 0, 1⟩) (some ⟨-4 / 5, 0, 3 / 5⟩)
        ⟨⟨1 / 100, 3 / 100, 3 / 100⟩, ⟨1, 3 / 10, 3 / 10⟩, ⟨1 / 2, 1 / 2, 1 / 2⟩, 10⟩ ≠
      PhongModel Real.sqrt Real.rpow [] ⟨1, 1, 1⟩ ⟨0, 0, 0⟩
        (some ⟨0, 0, 1⟩) (some ⟨-4 / 5, 0, 3 / 5⟩)
        ⟨⟨1 / 100, 3 / 100, 3 / 100⟩, ⟨1, 3 / 10, 3 / 10⟩, ⟨1 / 2, 1 / 2, 1 / 2⟩, 10⟩ := by
  have hcos : dot (⟨0, 0, 1⟩ : Vec3 ℝ) ⟨4 / 5, 0, -3 / 5⟩ ≤ 0 := by
    simp [dot]
    norm_num
  refine ⟨by simp [length, dot], ?_, normalize_light_below, hcos, ?_⟩
  · apply length_of_dot_eq_sq (by norm_num)
    simp [dot]
    norm_num
  · have hva : dot (⟨-4 / 5, 0, 3 / 5⟩ : Vec3 ℝ) ⟨-4 / 5, 0, -3 / 5⟩ = 7 / 25 := by
      simp [dot]
      norm_num
    have hp0 : 0 < Real.rpow (7 / 25) 10 := Real.rpow_pos_of_pos (by norm_num) 10
    have hp1 : Real.rpow (7 / 25) 10 ≤ 1 :=
      Real.rpow_le_one (by norm_num) (by norm_num) (by norm_num)
    rw [PhongModel_single, PhongModel_nil,
      lightStep_backface Real.rpow ⟨0, 0, 0⟩ ⟨0, 0, 1⟩ ⟨-4 / 5, 0, 3 / 5⟩ ⟨4 / 5, 0, -3 / 5⟩ _ _
        ⟨⟨4, 0, -3⟩, ⟨4 / 10, 4 / 10, 4 / 10⟩⟩ normalize_light_below hcos,
      reflexDirection_light_below]
    simp only [hva]
    rw [if_pos (by norm_num)]
    intro heq
    have hx := congrArg Vec3.x heq
    simp only [Vec3.clamp, Vec3.add, Vec3.mul, Vec3.scale, Vec3.splat] at hx
    rw [clamp_of_mem (by nlinarith) (by nlinarith), clamp_of_mem (by norm_num) (by norm_num)]
      at hx
    linarith

/-- C9, amended: for a light whose direction from the shaded point has
`dot(normal, light_direction) <= 0` the diffuse term contributes nothing, and the
specular term is still added when `cosAlpha = dot(view_direction, reflex_direction)`
is positive.  So `PhongModel` with that single light equals `PhongModel` with no lights
whenever `cosAlpha` is not positive, and otherwise it is the clamped sum of the ambient
term and `material.specular * cosAlpha ^ shininess * light.color`. -/
theorem PhongModel_backface_light (powf : ℝ → ℝ → ℝ) (ambient_light point n v l : Vec3 ℝ)
    (material : Material ℝ) (light : Light ℝ)
    (hl : normalize Real.sqrt (light.position.sub point) = some l)
    (hcos : dot n l ≤ 0) :
    ((∀ r, reflexDirection Real.sqrt (some n) (some l) = some r → dot v r ≤ 0) →
      PhongModel Real.sqrt powf [light] ambient_light point (some n) (some v) material =
        PhongModel Real.sqrt powf [] ambient_light point (some n) (some v) material) ∧
    (∀ r, reflexDirection Real.sqrt (some n) (some l) = some r → 0 < dot v r →
      PhongModel Real.sqrt powf [light] ambient_light point (some n) (some v) material =
        (((Vec3.splat 0).add (material.ambient.mul ambient_light)).add
          ((material.specular.scale (powf (dot v r) material.shininess)).mul
            light.color)).clamp (Vec3.splat 0) (Vec3.splat 1)) := by
  rw [PhongModel_single, PhongModel_nil, lightStep_backface powf _ _ _ _ _ _ _ hl hcos]
  constructor
  · intro hr
    cases hrd : reflexDirection Real.sqrt (some n) (some l) with
    | none => rfl
    | some r =>
      have h1 := hr r hrd
      simp only [if_neg (not_lt.mpr h1)]
  · intro r hrd hpos
    rw [hrd]
    simp only [gt_iff_lt, if_pos hpos]

/-- C9, amended, at the world origin with normal (0,0,1), view direction (-4/5,0,3/5),
the material `redMaterial` of the scene and the light at (4,0,-3) of color 0.4:
`cosAlpha = 7/25` is positive and the specular term is added to the ambient term. -/
theorem PhongModel_backface_light_witness :
    PhongModel Real.sqrt Real.rpow [⟨⟨4, 0, -3⟩, ⟨4 / 10, 4 / 10, 4 / 10⟩⟩] ⟨1, 1, 1⟩ ⟨0, 0, 0⟩
        (some ⟨0, 0, 1⟩) (some ⟨-4 / 5, 0, 3 / 5⟩)
        ⟨⟨1 / 100, 3 / 100, 3 / 100⟩, ⟨1, 3 / 10, 3 / 10⟩, ⟨1 / 2, 1 / 2, 1 / 2⟩, 10⟩ =
      (((Vec3.splat 0).add ((⟨1 / 100, 3 / 100, 3 / 100⟩ : Vec3 ℝ).mul ⟨1, 1, 1⟩)).add
        (((⟨1 / 2, 1 / 2, 1 / 2⟩ : Vec3 ℝ).scale
          (Real.rpow (dot (⟨-4 / 5, 0, 3 / 5⟩ : Vec3 ℝ) ⟨-4 / 5, 0, -3 / 5⟩) 10)).mul
            ⟨4 / 10, 4 / 10, 4 / 10⟩)).clamp (Vec3.splat 0) (Vec3.splat 1) :=
  (PhongModel_backface_light Real.rpow ⟨1, 1, 1⟩ ⟨0, 0, 0⟩ ⟨0, 0, 1⟩ ⟨-4 / 5, 0, 3 / 5⟩
    ⟨4 / 5, 0, -3 / 5⟩
    ⟨⟨1 / 100, 3 / 100, 3 / 100⟩, ⟨1, 3 / 10, 3 / 10⟩, ⟨1 / 2, 1 / 2, 1 / 2⟩, 10⟩
    ⟨⟨4, 0, -3⟩, ⟨4 / 10, 4 / 10, 4 / 10⟩⟩ normalize_light_below
    (by simp [dot]; norm_num)).2 ⟨-4 / 5, 0, -3 / 5⟩ reflexDirection_light_below
    (by simp [dot]; norm_num)

/-! ## Sphere intersection: further cases -/

/-- Exact-arithmetic reading of C11 (origin inside the sphere), with every `float` taken as a
real number (no rounding; the float program is treated in the float sections below): for a
ray of unit direction whose origin is strictly inside the sphere, the roots `t1 = a - b` and
`t2 = a + b` satisfy `t1 < 0 < t2` and `Sphere.intersect` reports no hit. -/
theorem intersect_origin_inside (s : Sphere ℝ) (ray : Ray ℝ) (a d b : ℝ)
    (hunit : length Real.sqrt ray.direction = 1)
    (hin : length Real.sqrt (s.center.sub ray.origin) < s.radius)
    (ha : a = dot (s.center.sub ray.origin) ray.direction)
    (hd : d = Real.sqrt ((length Real.sqrt (s.center.sub ray.origin)) ^ 2 - a ^ 2))
    (hb : b = Real.sqrt (s.radius ^ 2 - d ^ 2)) :
    a - b < 0 ∧ 0 < a + b ∧ (s.intersect Real.sqrt ray).1 = none := by
  have hdir := dot_self_of_unit hunit
  obtain ⟨hd0, hd2, -⟩ := perp_dist_facts _ _ a d hdir ha hd
  have hr : 0 < s.radius := lt_of_le_of_lt (Real.sqrt_nonneg _) hin
  have hcc : dot (s.center.sub ray.origin) (s.center.sub ray.origin) < s.radius ^ 2 :=
    (Real.sqrt_lt' hr).mp hin
  have hb0 : 0 ≤ b := by
    rw [hb]
    exact Real.sqrt_nonneg _
  have hb2 : b ^ 2 = s.radius ^ 2 - d ^ 2 := by
    rw [hb]
    exact Real.sq_sqrt (by nlinarith)
  have hab : a ^ 2 < b ^ 2 := by linarith
  obtain ⟨h1, h2⟩ := abs_lt_of_sq_lt_sq' hab hb0
  have hdr : d < s.radius := by nlinarith
  refine ⟨by linarith, by linarith, ?_⟩
  apply intersect_of_closestT_none
  rw [closestT_two_roots _ _ _ a d b hdir ha hd hdr hb, if_pos ⟨by linarith, by linarith⟩]

/-- Exact-arithmetic reading of C11 (no rounding), at the sphere of radius 2 centered at (0,0,1)
and the ray from the world origin along +z: `a = 1`, `d = 0`, `b = 2`, roots `-1` and `3`. -/
theorem intersect_origin_inside_witness :
    (1 : ℝ) - 2 < 0 ∧ (0 : ℝ) < 1 + 2 ∧
      (Sphere.intersect Real.sqrt
        (⟨⟨0, 0, 0⟩, ⟨⟨0, 0, 0⟩, ⟨1, 1, 1⟩, ⟨0, 0, 0⟩, 0⟩, 2, ⟨0, 0, 1⟩⟩ : Sphere ℝ)
        ⟨⟨0, 0, 0⟩, ⟨0, 0, 1⟩⟩).1 = none :=
  intersect_origin_inside
    ⟨⟨0, 0, 0⟩, ⟨⟨0, 0, 0⟩, ⟨1, 1, 1⟩, ⟨0, 0, 0⟩, 0⟩, 2, ⟨0, 0, 1⟩⟩ ⟨⟨0, 0, 0⟩, ⟨0, 0, 1⟩⟩ 1 0 2
    (by simp [length, dot])
    (by
      have e : length Real.sqrt ((⟨0, 0, 1⟩ : Vec3 ℝ).sub ⟨0, 0, 0⟩) = 1 := by
        simp [length, dot, Vec3.sub]
      show length Real.sqrt ((⟨0, 0, 1⟩ : Vec3 ℝ).sub ⟨0, 0, 0⟩) < 2
      rw [e]
      norm_num)
    (by simp [dot, Vec3.sub])
    (by
      rw [length_sq]
      exact (sqrt_of_eq_sq (le_refl 0) (by simp [dot, Vec3.sub])).symm)
    (by
      show (2 : ℝ) = Real.sqrt (2 ^ 2 - 0 ^ 2)
      exact (sqrt_of_eq_sq (by norm_num) (by norm_num)).symm)

/-- Exact-arithmetic reading of C15 (sphere wholly behind the ray), with every `float` taken as
a real number (no rounding; the float program is treated in the float sections below): for a
ray of unit direction whose origin is strictly outside the sphere, with `d < radius` and `a
< 0`, both roots `t1 = a - b` and `t2 = a + b` are negative, the inside test `t1 < 0 && 0 <
t2` fails, each root is replaced by the sentinel (`none`), and `Sphere.intersect` reports no
hit. -/
theorem intersect_sphere_behind (s : Sphere ℝ) (ray : Ray ℝ) (a d b : ℝ)
    (hunit : length Real.sqrt ray.direction = 1)
    (hout : length Real.sqrt (s.center.sub ray.origin) > s.radius)
    (ha : a = dot (s.center.sub ray.origin) ray.direction)
    (haneg : a < 0)
    (hd : d = Real.sqrt ((length Real.sqrt (s.center.sub ray.origin)) ^ 2 - a ^ 2))
    (hdr : d < s.radius)
    (hb : b = Real.sqrt (s.radius ^ 2 - d ^ 2)) :
    a - b < 0 ∧ a + b < 0 ∧
      (if a - b ≥ 0 then some (a - b) else none) = (none : Option ℝ) ∧
      (if a + b ≥ 0 then some (a + b) else none) = (none : Option ℝ) ∧
      (s.intersect Real.sqrt ray).1 = none := by
  have hdir := dot_self_of_unit hunit
  obtain ⟨hd0, hd2, -⟩ := perp_dist_facts _ _ a d hdir ha hd
  have hr : 0 < s.radius := lt_of_le_of_lt hd0 hdr
  have hcc : s.radius ^ 2 < dot (s.center.sub ray.origin) (s.center.sub ray.origin) :=
    (Real.lt_sqrt hr.le).mp hout
  have hb0 : 0 ≤ b := by
    rw [hb]
    exact Real.sqrt_nonneg _
  have hb2 : b ^ 2 = s.radius ^ 2 - d ^ 2 := by
    rw [hb]
    exact Real.sq_sqrt (by nlinarith)
  have hab : b ^ 2 < a ^ 2 := by linarith
  have h2 : a + b < 0 := by nlinarith
  have h1 : a - b < 0 := by linarith
  have e1 : (if a - b ≥ 0 then some (a - b) else none) = (none : Option ℝ) :=
    if_neg (not_le.mpr h1)
  have e2 : (if a + b ≥ 0 then some (a + b) else none) = (none : Option ℝ) :=
    if_neg (not_le.mpr h2)
  refine ⟨h1, h2, e1, e2, ?_⟩
  apply intersect_of_closestT_none
  rw [closestT_two_roots _ _ _ a d b hdir ha hd hdr hb,
    if_neg (fun hc => absurd hc.2 (not_lt.mpr (by linarith))), e1, e2]
  rfl

/-- Exact-arithmetic reading of C15 (no rounding), at the sphere of radius 1 centered at
(0,0,-3) and the ray from the world origin along +z: `a = -3`, `d = 0`, `b = 1`, roots `-4`
and `-2`. -/
theorem intersect_sphere_behind_witness :
    (Sphere.intersect Real.sqrt
      (⟨⟨0, 0, 0⟩, ⟨⟨0, 0, 0⟩, ⟨1, 1, 1⟩, ⟨0, 0, 0⟩, 0⟩, 1, ⟨0, 0, -3⟩⟩ : Sphere ℝ)
      ⟨⟨0, 0, 0⟩, ⟨0, 0, 1⟩⟩).1 = none :=
  (intersect_sphere_behind
    ⟨⟨0, 0, 0⟩, ⟨⟨0, 0, 0⟩, ⟨1, 1, 1⟩, ⟨0, 0, 0⟩, 0⟩, 1, ⟨0, 0, -3⟩⟩ ⟨⟨0, 0, 0⟩, ⟨0, 0, 1⟩⟩
    (-3) 0 1
    (by simp [length, dot])
    (by
      have e : length Real.sqrt ((⟨0, 0, -3⟩ : Vec3 ℝ).sub ⟨0, 0, 0⟩) = 3 :=
        length_of_dot_eq_sq (by norm_num) (by simp [dot, Vec3.sub]; norm_num)
      show length Real.sqrt ((⟨0, 0, -3⟩ : Vec3 ℝ).sub ⟨0, 0, 0⟩) > 1
      rw [e]
      norm_num)
    (by simp [dot, Vec3.sub])
    (by norm_num)
    (by
      rw [length_sq]
      exact (sqrt_of_eq_sq (le_refl 0) (by simp [dot, Vec3.sub]; norm_num)).symm)
    (by norm_num)
    (by
      show (1 : ℝ) = Real.sqrt (1 ^ 2 - 0 ^ 2)
      exact (sqrt_of_eq_sq (by norm_num) (by norm_num)).symm)).2.2.2.2

/-- Exact-arithmetic reading of C19 (ray origin on the surface), with every `float` taken as a
real number (no rounding; the float program is treated in the float sections below): for a
sphere of positive radius and a ray of unit direction whose origin is at distance `radius`
from the center, `Sphere.intersect` reports a hit with `distance = 0` and `intersection =
origin`, whatever the sign of the forward projection `a`. -/
theorem intersect_origin_on_surface (s : Sphere ℝ) (ray : Ray ℝ)
    (hr : 0 < s.radius)
    (hunit : length Real.sqrt ray.direction = 1)
    (hon : length Real.sqrt (s.center.sub ray.origin) = s.radius) :
    ∃ h : Hit ℝ, (s.intersect Real.sqrt ray).1 = some h ∧
      h.distance = 0 ∧ h.intersection = ray.origin := by
  have hdir := dot_self_of_unit hunit
  have hcc : dot (s.center.sub ray.origin) (s.center.sub ray.origin) = s.radius ^ 2 := by
    rw [← length_sq, hon]
  have hD := radicand_nonneg (s.center.sub ray.origin) ray.direction hdir
  have ht : closestT Real.sqrt (s.center.sub ray.origin) ray.direction s.radius = some 0 := by
    rcases lt_trichotomy (dot (s.center.sub ray.origin) ray.direction) 0 with hneg | hz | hpos
    · have hdr : Real.sqrt ((length Real.sqrt (s.center.sub ray.origin)) ^ 2 -
          (dot (s.center.sub ray.origin) ray.direction) ^ 2) < s.radius := by
        rw [length_sq, Real.sqrt_lt' hr]
        nlinarith
      have hb : -dot (s.center.sub ray.origin) ray.direction =
          Real.sqrt (s.radius ^ 2 -
            Real.sqrt ((length Real.sqrt (s.center.sub ray.origin)) ^ 2 -
              (dot (s.center.sub ray.origin) ray.direction) ^ 2) ^ 2) := by
        rw [length_sq, Real.sq_sqrt hD]
        exact (sqrt_of_eq_sq (by linarith) (by rw [hcc]; ring)).symm
      rw [closestT_two_roots _ _ _ _ _ _ hdir rfl rfl hdr hb]
      have h1 : ¬ (dot (s.center.sub ray.origin) ray.direction -
          -dot (s.center.sub ray.origin) ray.direction < 0 ∧
          0 < dot (s.center.sub ray.origin) ray.direction +
            -dot (s.center.sub ray.origin) ray.direction) := by
        intro hc
        linarith [hc.2]
      have h2 : ¬ (dot (s.center.sub ray.origin) ray.direction -
          -dot (s.center.sub ray.origin) ray.direction ≥ 0) := by
        intro hc
        linarith
      rw [if_neg h1, if_neg h2, add_neg_cancel, if_pos (le_refl 0)]
      rfl
    · rw [closestT_unit _ _ _ hdir, hz, hcc]
      have e : Real.sqrt (s.radius ^ 2 - 0 ^ 2) = s.radius :=
        sqrt_of_eq_sq hr.le (by ring)
      rw [e, if_pos rfl]
    · have hdr : Real.sqrt ((length Real.sqrt (s.center.sub ray.origin)) ^ 2 -
          (dot (s.center.sub ray.origin) ray.direction) ^ 2) < s.radius := by
        rw [length_sq, Real.sqrt_lt' hr]
        nlinarith
      have hb : dot (s.center.sub ray.origin) ray.direction =
          Real.sqrt (s.radius ^ 2 -
            Real.sqrt ((length Real.sqrt (s.center.sub ray.origin)) ^ 2 -
              (dot (s.center.sub ray.origin) ray.direction) ^ 2) ^ 2) := by
        rw [length_sq, Real.sq_sqrt hD]
        exact (sqrt_of_eq_sq (by linarith) (by rw [hcc]; ring)).symm
      rw [closestT_two_roots _ _ _ _ _ _ hdir rfl rfl hdr hb]
      have h1 : ¬ (dot (s.center.sub ray.origin) ray.direction -
          dot (s.center.sub ray.origin) ray.direction < 0 ∧
          0 < dot (s.center.sub ray.origin) ray.direction +
            dot (s.center.sub ray.origin) ray.direction) := by
        intro hc
        linarith [hc.1]
      have h3 : dot (s.center.sub ray.origin) ray.direction +
          dot (s.center.sub ray.origin) ray.direction ≥ 0 := by linarith
      have h4 : ¬ (dot (s.center.sub ray.origin) ray.direction +
          dot (s.center.sub ray.origin) ray.direction < 0) := by linarith
      rw [if_neg h1, sub_self, if_pos (le_refl 0), if_pos h3]
      simp only [fmin, if_neg h4]
  refine ⟨s.fillHit Real.sqrt ray 0, intersect_of_closestT s ray 0 ht, ?_, ?_⟩
  · rw [fillHit_distance s ray 0 hdir]
    exact abs_zero
  · rw [fillHit_intersection]
    ext <;> simp [Vec3.add, Vec3.scale]

/-- Exact-arithmetic reading of C19 (no rounding), at the sphere of radius 1 centered at (0,0,1)
and the ray from the world origin (a point of the sphere) along +z, into the sphere. -/
theorem intersect_origin_on_surface_witness :
    ∃ h : Hit ℝ,
      (Sphere.intersect Real.sqrt
        (⟨⟨0, 0, 0⟩, ⟨⟨0, 0, 0⟩, ⟨1, 1, 1⟩, ⟨0, 0, 0⟩, 0⟩, 1, ⟨0, 0, 1⟩⟩ : Sphere ℝ)
        ⟨⟨0, 0, 0⟩, ⟨0, 0, 1⟩⟩).1 = some h ∧
      h.distance = 0 ∧ h.intersection = ⟨0, 0, 0⟩ :=
  intersect_origin_on_surface
    ⟨⟨0, 0, 0⟩, ⟨⟨0, 0, 0⟩, ⟨1, 1, 1⟩, ⟨0, 0, 0⟩, 0⟩, 1, ⟨0, 0, 1⟩⟩ ⟨⟨0, 0, 0⟩, ⟨0, 0, 1⟩⟩
    (by norm_num)
    (by simp [length, dot])
    (by simp [length, dot, Vec3.sub])

/-- Exact-arithmetic reading of C14, with every `float` taken as a real number (no rounding; the
float program is treated in the float sections below): `Sphere.intersect` leaves the sphere
as it found it, hit or no hit: the offset subtracted from `center` is added back, and
`radius` is not written. -/
theorem intersect_leaves_sphere (s : Sphere ℝ) (ray : Ray ℝ) :
    (s.intersect Real.sqrt ray).2 = s ∧
      (s.intersect Real.sqrt ray).2.center = s.center ∧
      (s.intersect Real.sqrt ray).2.radius = s.radius := by
  rw [intersect_snd]
  exact ⟨rfl, rfl, rfl⟩

/-- Exact-arithmetic reading of C18, with every `float` taken as a real number (no rounding; the
float program is treated in the float sections below): `Sphere.intersect` is
translation-invariant. Moving the center of the sphere and the origin of the ray by the same
vector `v` gives a hit exactly when the original call does, with the same `distance` and
`normal`, the `intersection` moved by `v`, and the moved sphere as `object`. -/
theorem intersect_translation_invariant (s : Sphere ℝ) (ray : Ray ℝ) (v : Vec3 ℝ) :
    (Sphere.intersect Real.sqrt
        (⟨s.color, s.material, s.radius, s.center.add v⟩ : Sphere ℝ)
        ⟨ray.origin.add v, ray.direction⟩).1 =
      (s.intersect Real.sqrt ray).1.map (fun h =>
        { normal := h.normal
          intersection := h.intersection.add v
          distance := h.distance
          object := ⟨s.color, s.material, s.radius, s.center.add v⟩ }) := by
  rw [intersect_fst, intersect_fst]
  simp only [add_sub_add_right_vec]
  cases closestT Real.sqrt (s.center.sub ray.origin) ray.direction s.radius with
  | none => rfl
  | some t =>
    simp only [Option.map_some', Sphere.fillHit, distance, add_add_vec,
      add_sub_add_right_vec]

/-! ## Shading: further cases -/

/-- C17: with `shininess = 0` and a positive `cosAlpha` the specular factor
`cosAlpha ^ shininess` is 1, so the specular block adds exactly
`material.specular * light.color` (component-wise) to the color left by the diffuse
block. -/
theorem specular_shininess_zero (point : Vec3 ℝ) (normal view_direction : Option (Vec3 ℝ))
    (material : Material ℝ) (color : Vec3 ℝ) (light : Light ℝ) (cosAlpha : ℝ)
    (hsh : material.shininess = 0)
    (hcos : dotN view_direction (reflexDirection Real.sqrt normal
      (normalize Real.sqrt (light.position.sub point))) = some cosAlpha)
    (hpos : 0 < cosAlpha) :
    Real.rpow cosAlpha material.shininess = 1 ∧
      specularStep Real.sqrt Real.rpow point normal view_direction material color light =
        color.add (material.specular.mul light.color) ∧
      lightStep Real.sqrt Real.rpow point normal view_direction material color light =
        (diffuseStep Real.sqrt point normal material color light).add
          (material.specular.mul light.color) := by
  have hp : Real.rpow cosAlpha material.shininess = 1 := by
    rw [hsh]
    exact Real.rpow_zero cosAlpha
  have hs : ∀ c : Vec3 ℝ,
      specularStep Real.sqrt Real.rpow point normal view_direction material c light =
        c.add (material.specular.mul light.color) := by
    intro c
    unfold specularStep
    simp only [hcos, gt_iff_lt, if_pos hpos, hp]
    ext <;> simp [Vec3.add, Vec3.mul, Vec3.scale]
  refine ⟨hp, hs color, ?_⟩
  rw [lightStep_eq, hs]

/-- C17 at the world origin with normal (0,0,1), view direction (-4/5,0,3/5), the light
at (4,0,-3) of color 0.4 and a material of specular 0.5 and shininess 0:
`cosAlpha = 7/25`. -/
theorem specular_shininess_zero_witness :
    specularStep Real.sqrt Real.rpow ⟨0, 0, 0⟩ (some ⟨0, 0, 1⟩) (some ⟨-4 / 5, 0, 3 / 5⟩)
        ⟨⟨7 / 100, 9 / 100, 7 / 100⟩, ⟨7 / 10, 9 / 10, 7 / 10⟩, ⟨1 / 2, 1 / 2, 1 / 2⟩, 0⟩
        ⟨0, 0, 0⟩ ⟨⟨4, 0, -3⟩, ⟨4 / 10, 4 / 10, 4 / 10⟩⟩ =
      (⟨0, 0, 0⟩ : Vec3 ℝ).add
        ((⟨1 / 2, 1 / 2, 1 / 2⟩ : Vec3 ℝ).mul ⟨4 / 10, 4 / 10, 4 / 10⟩) :=
  (specular_shininess_zero ⟨0, 0, 0⟩ (some ⟨0, 0, 1⟩) (some ⟨-4 / 5, 0, 3 / 5⟩)
    ⟨⟨7 / 100, 9 / 100, 7 / 100⟩, ⟨7 / 10, 9 / 10, 7 / 10⟩, ⟨1 / 2, 1 / 2, 1 / 2⟩, 0⟩
    ⟨0, 0, 0⟩ ⟨⟨4, 0, -3⟩, ⟨4 / 10, 4 / 10, 4 / 10⟩⟩ (7 / 25) rfl
    (by
      show dotN (some (⟨-4 / 5, 0, 3 / 5⟩ : Vec3 ℝ))
        (reflexDirection Real.sqrt (some ⟨0, 0, 1⟩)
          (normalize Real.sqrt ((⟨4, 0, -3⟩ : Vec3 ℝ).sub ⟨0, 0, 0⟩))) = some (7 / 25)
      rw [normalize_light_below, reflexDirection_light_below]
      simp [dotN, dot]
      norm_num)
    (by norm_num)).2.1

/-- Exact-arithmetic reading of C20, with every `float` taken as a real number (no rounding; the
float program is treated in the float sections below): `PhongModel` does not depend on the
order of the lights: two light lists that are permutations of each other give the same
color. -/
theorem PhongModel_perm (sqrt : ℝ → ℝ) (powf : ℝ → ℝ → ℝ) (lights1 lights2 : List (Light ℝ))
    (ambient_light point : Vec3 ℝ) (normal view_direction : Option (Vec3 ℝ))
    (material : Material ℝ) (hperm : lights1.Perm lights2) :
    PhongModel sqrt powf lights1 ambient_light point normal view_direction material =
      PhongModel sqrt powf lights2 ambient_light point normal view_direction material := by
  unfold PhongModel
  simp only []
  rw [List.Perm.foldl_eq' hperm
    (fun x _ y _ z => lightStep_comm sqrt powf point normal view_direction material z x y)]

/-- Exact-arithmetic reading of C20 (no rounding), at the first two lights of the scene, in both
orders. -/
theorem PhongModel_perm_witness :
    PhongModel Real.sqrt Real.rpow
        [⟨⟨0, 26, 5⟩, ⟨4 / 10, 4 / 10, 4 / 10⟩⟩, ⟨⟨0, 1, 12⟩, ⟨4 / 10, 4 / 10, 4 / 10⟩⟩]
        ⟨1, 1, 1⟩ ⟨0, 0, 2⟩ (some ⟨0, 0, -1⟩) (some ⟨0, 0, -1⟩)
        ⟨⟨1 / 100, 3 / 100, 3 / 100⟩, ⟨1, 3 / 10, 3 / 10⟩, ⟨1 / 2, 1 / 2, 1 / 2⟩, 10⟩ =
      PhongModel Real.sqrt Real.rpow
        [⟨⟨0, 1, 12⟩, ⟨4 / 10, 4 / 10, 4 / 10⟩⟩, ⟨⟨0, 26, 5⟩, ⟨4 / 10, 4 / 10, 4 / 10⟩⟩]
        ⟨1, 1, 1⟩ ⟨0, 0, 2⟩ (some ⟨0, 0, -1⟩) (some ⟨0, 0, -1⟩)
        ⟨⟨1 / 100, 3 / 100, 3 / 100⟩, ⟨1, 3 / 10, 3 / 10⟩, ⟨1 / 2, 1 / 2, 1 / 2⟩, 10⟩ :=
  PhongModel_perm Real.sqrt Real.rpow _ _ _ _ _ _ _ (List.Perm.swap _ _ [])

/-! ## End-to-end scenario and camera -/

/-- C12: for the sphere of radius 1 centered at (0,0,3) with `material.diffuse = (1,1,1)`
and the ray from the world origin along +z, `Sphere.intersect` reports a hit with
`intersection = (0,0,2)`, `normal = (0,0,-1)` and `distance = 2`; for the light at
(0,5,3) of color (1,1,1) the light direction is `normalize((0,5,1))`, its dot product
with the normal is negative, the diffuse contribution
`diffuse * max(cosOmega, 0) * light.color` is (0,0,0), and the diffuse block of
`PhongModel` leaves the color unchanged. -/
theorem end_to_end_scene (color0 ambient specular : Vec3 ℝ) (shininess : ℝ) :
    ∃ h : Hit ℝ,
      (Sphere.intersect Real.sqrt
        (⟨color0, ⟨ambient, ⟨1, 1, 1⟩, specular, shininess⟩, 1, ⟨0, 0, 3⟩⟩ : Sphere ℝ)
        ⟨⟨0, 0, 0⟩, ⟨0, 0, 1⟩⟩).1 = some h ∧
      h.intersection = ⟨0, 0, 2⟩ ∧ h.normal = some ⟨0, 0, -1⟩ ∧ h.distance = 2 ∧
      ∃ l : Vec3 ℝ, normalize Real.sqrt ⟨0, 5, 1⟩ = some l ∧
        normalize Real.sqrt ((⟨0, 5, 3⟩ : Vec3 ℝ).sub h.intersection) = some l ∧
        dot ⟨0, 0, -1⟩ l < 0 ∧
        ((⟨1, 1, 1⟩ : Vec3 ℝ).scale (max (dot ⟨0, 0, -1⟩ l) 0)).mul ⟨1, 1, 1⟩ = ⟨0, 0, 0⟩ ∧
        ∀ color : Vec3 ℝ,
          diffuseStep Real.sqrt h.intersection h.normal
            ⟨ambient, ⟨1, 1, 1⟩, specular, shininess⟩ color ⟨⟨0, 5, 3⟩, ⟨1, 1, 1⟩⟩ = color := by
  have hi : (Sphere.fillHit Real.sqrt
      (⟨color0, ⟨ambient, ⟨1, 1, 1⟩, specular, shininess⟩, 1, ⟨0, 0, 3⟩⟩ : Sphere ℝ)
      ⟨⟨0, 0, 0⟩, ⟨0, 0, 1⟩⟩ 2).intersection = ⟨0, 0, 2⟩ := by
    simp [Sphere.fillHit, Vec3.add, Vec3.scale]
  have hn : (Sphere.fillHit Real.sqrt
      (⟨color0, ⟨ambient, ⟨1, 1, 1⟩, specular, shininess⟩, 1, ⟨0, 0, 3⟩⟩ : Sphere ℝ)
      ⟨⟨0, 0, 0⟩, ⟨0, 0, 1⟩⟩ 2).normal = some ⟨0, 0, -1⟩ := by
    have hv : (((⟨0, 0, 1⟩ : Vec3 ℝ).scale 2).add ⟨0, 0, 0⟩).sub ⟨0, 0, 3⟩ = ⟨0, 0, -1⟩ := by
      ext <;> simp [Vec3.add, Vec3.scale, Vec3.sub]
      norm_num
    show normalize Real.sqrt ((((⟨0, 0, 1⟩ : Vec3 ℝ).scale 2).add ⟨0, 0, 0⟩).sub ⟨0, 0, 3⟩) =
      some ⟨0, 0, -1⟩
    rw [hv, normalize_of_dot_eq_sq ⟨0, 0, -1⟩ 1 (by norm_num) (by simp [dot])]
    simp
  have hsub : (⟨0, 5, 3⟩ : Vec3 ℝ).sub ⟨0, 0, 2⟩ = ⟨0, 5, 1⟩ := by
    ext <;> simp [Vec3.sub]
    norm_num
  have hdot : dot (⟨0, 5, 1⟩ : Vec3 ℝ) ⟨0, 5, 1⟩ = 26 := by
    simp [dot]
    norm_num
  have hl : normalize Real.sqrt (⟨0, 5, 1⟩ : Vec3 ℝ) =
      some ((⟨0, 5, 1⟩ : Vec3 ℝ).scale (1 / Real.sqrt 26)) := by
    rw [normalize_of_ne_zero _ (by rw [hdot]; norm_num), hdot]
  have hs : 0 < 1 / Real.sqrt 26 := by
    have h26 : 0 < Real.sqrt 26 := Real.sqrt_pos.mpr (by norm_num)
    positivity
  have hcos : dot (⟨0, 0, -1⟩ : Vec3 ℝ) ((⟨0, 5, 1⟩ : Vec3 ℝ).scale (1 / Real.sqrt 26)) < 0 := by
    simp only [dot, Vec3.scale]
    linarith
  refine ⟨_, intersect_of_closestT
    (⟨color0, ⟨ambient, ⟨1, 1, 1⟩, specular, shininess⟩, 1, ⟨0, 0, 3⟩⟩ : Sphere ℝ)
    ⟨⟨0, 0, 0⟩, ⟨0, 0, 1⟩⟩ 2 closestT_front, hi, hn, ?_, ?_⟩
  · rw [fillHit_distance _ _ _ (by simp [dot])]
    norm_num
  · refine ⟨_, hl, ?_, hcos, ?_, ?_⟩
    · rw [hi, hsub, hl]
    · rw [max_eq_right hcos.le]
      ext <;> simp [Vec3.scale, Vec3.mul]
    · intro color
      unfold diffuseStep
      simp only [hi, hn, hsub, hl, dotN, gt_iff_lt, if_neg (not_lt.mpr hcos.le)]

/-- Exact-arithmetic reading of C13, with every `float` taken as a real number (no rounding; the
float program is treated in the float sections below): the pixel-to-ray mapping is
mirror-symmetric. For a pixel `(w, h)` of a `width` by `height` image the mirrored indices
are again pixels of the image, the vector of pixel `(width-1-w, h)` is `(-x, y, 1)` and that
of pixel `(w, height-1-h)` is `(x, -y, 1)`, where `(x, y, 1)` is the vector of `(w, h)`; for
`width = height = 2` and `fov = 90` the four vectors are (-1/2,1/2,1), (1/2,1/2,1),
(-1/2,-1/2,1), (1/2,-1/2,1). -/
theorem pixelDirection_mirror (tan : ℝ → ℝ) (pi fov : ℝ) (width height w h : ℤ)
    (hw0 : 0 ≤ w) (hw : w < width) (hh0 : 0 ≤ h) (hh : h < height) :
    (0 ≤ width - 1 - w ∧ width - 1 - w < width ∧
      0 ≤ height - 1 - h ∧ height - 1 - h < height) ∧
    pixelDirection tan pi width height fov (width - 1 - w) h =
      ⟨-(pixelDirection tan pi width height fov w h).x,
        (pixelDirection tan pi width height fov w h).y, 1⟩ ∧
    pixelDirection tan pi width height fov w (height - 1 - h) =
      ⟨(pixelDirection tan pi width height fov w h).x,
        -(pixelDirection tan pi width height fov w h).y, 1⟩ ∧
    pixelDirection Real.tan Real.pi 2 2 90 0 0 = ⟨-1 / 2, 1 / 2, 1⟩ ∧
    pixelDirection Real.tan Real.pi 2 2 90 1 0 = ⟨1 / 2, 1 / 2, 1⟩ ∧
    pixelDirection Real.tan Real.pi 2 2 90 0 1 = ⟨-1 / 2, -1 / 2, 1⟩ ∧
    pixelDirection Real.tan Real.pi 2 2 90 1 1 = ⟨1 / 2, -1 / 2, 1⟩ := by
  have hpi : (90 * Real.pi / 180) / 2 = Real.pi / 4 := by ring
  refine ⟨⟨by omega, by omega, by omega, by omega⟩, ?_, ?_, ?_, ?_, ?_, ?_⟩
  · simp only [pixelDirection]
    generalize (2 * tan ((fov * pi / 180) / 2)) / (width : ℝ) = P
    ext
    · simp only []
      push_cast
      ring
    · rfl
    · rfl
  · simp only [pixelDirection]
    generalize (2 * tan ((fov * pi / 180) / 2)) / (width : ℝ) = P
    ext
    · rfl
    · simp only []
      push_cast
      ring
    · rfl
  · simp only [pixelDirection, hpi, Real.tan_pi_div_four]
    ext <;> push_cast <;> norm_num
  · simp only [pixelDirection, hpi, Real.tan_pi_div_four]
    ext <;> push_cast <;> norm_num
  · simp only [pixelDirection, hpi, Real.tan_pi_div_four]
    ext <;> push_cast <;> norm_num
  · simp only [pixelDirection, hpi, Real.tan_pi_div_four]
    ext <;> push_cast <;> norm_num

/-- Exact-arithmetic reading of C13 (no rounding), at pixel (0,0) of the 2 by 2 image with `fov
= 90`: its mirror images are the pixels (1,0) and (0,1). -/
theorem pixelDirection_mirror_witness :
    pixelDirection Real.tan Real.pi 2 2 90 (2 - 1 - 0) 0 =
        ⟨-(pixelDirection Real.tan Real.pi 2 2 90 0 0).x,
          (pixelDirection Real.tan Real.pi 2 2 90 0 0).y, 1⟩ ∧
      pixelDirection Real.tan Real.pi 2 2 90 0 (2 - 1 - 0) =
        ⟨(pixelDirection Real.tan Real.pi 2 2 90 0 0).x,
          -(pixelDirection Real.tan Real.pi 2 2 90 0 0).y, 1⟩ :=
  ⟨(pixelDirection_mirror Real.tan Real.pi 90 2 2 0 0 (by decide) (by decide) (by decide)
      (by decide)).2.1,
    (pixelDirection_mirror Real.tan Real.pi 90 2 2 0 0 (by decide) (by decide) (by decide)
      (by decide)).2.2.1⟩

/-! ## Float arithmetic: comparisons and the branches of `Sphere::intersect` -/

theorem Fl.feq_false_of_flt {x y : Fl} (h : x.flt y = true) : x.feq y = false := by
  cases x <;> cases y <;> simp [Fl.flt, Fl.feq] at h ⊢
  exact ne_of_lt h

theorem Fl.flt_asymm {x y : Fl} (h : x.flt y = true) : y.flt x = false := by
  cases x <;> cases y <;> simp [Fl.flt] at h ⊢
  exact le_of_lt h

theorem Fl.fle_false_of_flt {x y : Fl} (h : y.flt x = true) : x.fle y = false := by
  cases x <;> cases y <;> simp [Fl.fle, Fl.flt, Fl.feq] at h ⊢
  exact ⟨le_of_lt h, ne_of_gt h⟩

theorem Fl.fne_pinf {t : Fl} (h : t ≠ .pinf) : t.fne .pinf = true := by
  cases t <;> simp [Fl.fne, Fl.feq] at h ⊢

theorem intersectF_of_ne_pinf (ar : Arith) (s : Sphere Fl) (ray : Ray Fl)
    (h : (closestTF ar (vsubF ar s.center ray.origin) ray.direction s.radius).fne .pinf = true) :
    (s.intersectF ar ray).1 =
      some (Sphere.fillHitF ar
        { s with center := vaddF ar (vsubF ar s.center ray.origin) ray.origin }
        { ray with origin := vaddF ar (vsubF ar ray.origin ray.origin) ray.origin }
        (closestTF ar (vsubF ar s.center ray.origin) ray.direction s.radius)) := by
  unfold Sphere.intersectF
  simp only [h, if_true]

theorem intersectF_of_pinf (ar : Arith) (s : Sphere Fl) (ray : Ray Fl)
    (h : closestTF ar (vsubF ar s.center ray.origin) ray.direction s.radius = .pinf) :
    (s.intersectF ar ray).1 = none := by
  unfold Sphere.intersectF
  simp only [h]
  rfl

/-- The value of `closest_t` in the two-root branch, in float arithmetic. -/
theorem closestTF_two_roots (ar : Arith) (c dir : Vec3 Fl) (r a d b t1 t2 : Fl)
    (ha : a = dotF ar c dir)
    (hd : d = ar.sqrtDiffSq (lengthF ar c) a)
    (hdr : d.flt r = true)
    (hb : b = ar.sqrtDiffSq r d)
    (ht1 : t1 = ar.sub a b)
    (ht2 : t2 = ar.add a b) :
    closestTF ar c dir r =
      if t1.flt (.fin 0) && Fl.flt (.fin 0) t2 then .pinf
      else if (if Fl.fle (.fin 0) t2 then t2 else Fl.pinf).flt
          (if Fl.fle (.fin 0) t1 then t1 else Fl.pinf) then
        (if Fl.fle (.fin 0) t2 then t2 else Fl.pinf)
      else (if Fl.fle (.fin 0) t1 then t1 else Fl.pinf) := by
  unfold closestTF
  simp only [← ha, ← hd, Fl.feq_false_of_flt hdr, hdr, ← hb, ← ht1, ← ht2]
  rfl

set_option maxRecDepth 1000000

/-! ## Sphere intersection in float arithmetic -/

/-- C10 as stated fails in float arithmetic.  For the sphere of radius 1 centered at
(1,0,2) and the ray from the world origin along +z, `d = sqrt(5 - 4) = 1 = radius` in
exact arithmetic; the code computes `d = 1 + 2^-23`, takes the last branch and reports
no hit. -/
theorem intersect_tangent_float_counterexample :
    (0 : ℝ) < 1 ∧
    length Real.sqrt (⟨0, 0, 1⟩ : Vec3 ℝ) = 1 ∧
    Real.sqrt ((length Real.sqrt ((⟨1, 0, 2⟩ : Vec3 ℝ).sub ⟨0, 0, 0⟩)) ^ 2 -
      (dot ((⟨1, 0, 2⟩ : Vec3 ℝ).sub ⟨0, 0, 0⟩) ⟨0, 0, 1⟩) ^ 2) = 1 ∧
    ieee.sqrtDiffSq (lengthF ieee (vsubF ieee ⟨.fin 1, .fin 0, .fin 2⟩ ⟨.fin 0, .fin 0, .fin 0⟩))
      (dotF ieee (vsubF ieee ⟨.fin 1, .fin 0, .fin 2⟩ ⟨.fin 0, .fin 0, .fin 0⟩)
        ⟨.fin 0, .fin 0, .fin 1⟩) = .fin (1 + 1 / 8388608) ∧
    (Sphere.intersectF ieee
      ⟨⟨.fin 0, .fin 0, .fin 0⟩,
        ⟨⟨.fin 0, .fin 0, .fin 0⟩, ⟨.fin 1, .fin 1, .fin 1⟩, ⟨.fin 0, .fin 0, .fin 0⟩, .fin 0⟩,
        .fin 1, ⟨.fin 1, .fin 0, .fin 2⟩⟩
      ⟨⟨.fin 0, .fin 0, .fin 0⟩, ⟨.fin 0, .fin 0, .fin 1⟩⟩).1 = none := by
  refine ⟨by norm_num, by simp [length, dot], ?_, by decide!, by decide!⟩
  rw [length_sq]
  exact sqrt_of_eq_sq (by norm_num) (by simp [dot, Vec3.sub]; norm_num)

/-- C10, amended: in float arithmetic, when the `d` that the code computes equals the
radius (`d == radius`) and the computed `a` is not negative and not `INFINITY`,
`closest_t` is not negative and `Sphere.intersect` reports a hit at the single root `a`:
`intersection` is `direction * a + origin` and `distance` is
`glm::distance(origin, intersection)`, both as computed in float arithmetic (with the
origin as translated back). -/
theorem intersectF_tangent (ar : Arith) (s : Sphere Fl) (ray : Ray Fl) (a d : Fl)
    (ha : a = dotF ar (vsubF ar s.center ray.origin) ray.direction)
    (hd : d = ar.sqrtDiffSq (lengthF ar (vsubF ar s.center ray.origin)) a)
    (hdr : d.feq s.radius = true)
    (h0 : Fl.fle (.fin 0) a = true)
    (hinf : a ≠ .pinf) :
    Fl.fle (.fin 0)
        (closestTF ar (vsubF ar s.center ray.origin) ray.direction s.radius) = true ∧
    ∃ h : FHit, (s.intersectF ar ray).1 = some h ∧
      h.intersection = vaddF ar (vscaleF ar ray.direction a)
        (vaddF ar (vsubF ar ray.origin ray.origin) ray.origin) ∧
      h.distance = distanceF ar (vaddF ar (vsubF ar ray.origin ray.origin) ray.origin)
        h.intersection := by
  have hct : closestTF ar (vsubF ar s.center ray.origin) ray.direction s.radius = a := by
    unfold closestTF
    simp only [← ha, ← hd, hdr, if_true]
  have hne := Fl.fne_pinf hinf
  rw [← hct] at hne
  refine ⟨by rw [hct]; exact h0, _, intersectF_of_ne_pinf ar s ray hne, ?_, ?_⟩
  · rw [hct]
    rfl
  · rfl

/-- C10, amended, at the sphere of radius 3 centered at (3,0,4) and the ray from the
world origin along +z, in IEEE arithmetic: `a = 4`, `d = 3 == radius`; the hit is at
(0,0,4) with distance 4. -/
theorem intersectF_tangent_witness :
    ∃ h : FHit,
      (Sphere.intersectF ieee
        ⟨⟨.fin 0, .fin 0, .fin 0⟩,
          ⟨⟨.fin 0, .fin 0, .fin 0⟩, ⟨.fin 1, .fin 1, .fin 1⟩, ⟨.fin 0, .fin 0, .fin 0⟩, .fin 0⟩,
          .fin 3, ⟨.fin 3, .fin 0, .fin 4⟩⟩
        ⟨⟨.fin 0, .fin 0, .fin 0⟩, ⟨.fin 0, .fin 0, .fin 1⟩⟩).1 = some h ∧
      h.intersection = ⟨.fin 0, .fin 0, .fin 4⟩ ∧ h.distance = .fin 4 := by
  obtain ⟨-, h, h1, h2, h3⟩ := intersectF_tangent ieee
    ⟨⟨.fin 0, .fin 0, .fin 0⟩,
      ⟨⟨.fin 0, .fin 0, .fin 0⟩, ⟨.fin 1, .fin 1, .fin 1⟩, ⟨.fin 0, .fin 0, .fin 0⟩, .fin 0⟩,
      .fin 3, ⟨.fin 3, .fin 0, .fin 4⟩⟩
    ⟨⟨.fin 0, .fin 0, .fin 0⟩, ⟨.fin 0, .fin 0, .fin 1⟩⟩
    (.fin 4) (.fin 3)
    (by decide!) (by decide!) (by decide!) (by decide!) (by decide!)
  refine ⟨h, h1, ?_, ?_⟩
  · rw [h2]
    decide!
  · rw [h3, h2]
    decide!

/-- C11 as stated fails in float arithmetic.  For the sphere of radius 16.001953125
centered at (16,0.25,0) and the ray from the world origin along +x the origin is
strictly inside the sphere in exact arithmetic; the code computes `b = 16 = a`, so
`t1 = 0` is not negative, and reports a hit at distance 0. -/
theorem intersect_inside_float_counterexample :
    length Real.sqrt (⟨1, 0, 0⟩ : Vec3 ℝ) = 1 ∧
    length Real.sqrt ((⟨16, 1 / 4, 0⟩ : Vec3 ℝ).sub ⟨0, 0, 0⟩) < 8193 / 512 ∧
    rnd32 (8193 / 512) = .fin (8193 / 512) ∧
    ieee.sub
      (dotF ieee (vsubF ieee ⟨.fin 16, .fin (1 / 4), .fin 0⟩ ⟨.fin 0, .fin 0, .fin 0⟩)
        ⟨.fin 1, .fin 0, .fin 0⟩)
      (ieee.sqrtDiffSq (.fin (8193 / 512))
        (ieee.sqrtDiffSq
          (lengthF ieee (vsubF ieee ⟨.fin 16, .fin (1 / 4), .fin 0⟩ ⟨.fin 0, .fin 0, .fin 0⟩))
          (dotF ieee (vsubF ieee ⟨.fin 16, .fin (1 / 4), .fin 0⟩ ⟨.fin 0, .fin 0, .fin 0⟩)
            ⟨.fin 1, .fin 0, .fin 0⟩))) = .fin 0 ∧
    (Sphere.intersectF ieee
      ⟨⟨.fin 0, .fin 0, .fin 0⟩,
        ⟨⟨.fin 0, .fin 0, .fin 0⟩, ⟨.fin 1, .fin 1, .fin 1⟩, ⟨.fin 0, .fin 0, .fin 0⟩, .fin 0⟩,
        .fin (8193 / 512), ⟨.fin 16, .fin (1 / 4), .fin 0⟩⟩
      ⟨⟨.fin 0, .fin 0, .fin 0⟩, ⟨.fin 1, .fin 0, .fin 0⟩⟩).1.map FHit.distance =
        some (.fin 0) := by
  refine ⟨by simp [length, dot], ?_, by decide!, by decide!, by decide!⟩
  unfold length
  rw [Real.sqrt_lt' (by norm_num)]
  simp [dot, Vec3.sub]
  norm_num

/-- C11, amended: in float arithmetic, when the values the code computes satisfy
`d < radius` and `t1 < 0 < t2` (`t1 = a - b`, `t2 = a + b`), `Sphere.intersect` reports no
hit. -/
theorem intersectF_inside (ar : Arith) (s : Sphere Fl) (ray : Ray Fl)
    (a d b t1 t2 : Fl)
    (ha : a = dotF ar (vsubF ar s.center ray.origin) ray.direction)
    (hd : d = ar.sqrtDiffSq (lengthF ar (vsubF ar s.center ray.origin)) a)
    (hdr : d.flt s.radius = true)
    (hb : b = ar.sqrtDiffSq s.radius d)
    (ht1 : t1 = ar.sub a b)
    (ht2 : t2 = ar.add a b)
    (h1 : t1.flt (.fin 0) = true)
    (h2 : Fl.flt (.fin 0) t2 = true) :
    (s.intersectF ar ray).1 = none := by
  apply intersectF_of_pinf
  rw [closestTF_two_roots ar _ _ _ a d b t1 t2 ha hd hdr hb ht1 ht2]
  simp only [h1, h2, Bool.and_self, if_true]

/-- C11, amended, at the sphere of radius 2 centered at (0,0,1) and the ray from the
world origin along +z, in IEEE arithmetic: `a = 1`, `d = 0`, `b = 2`, `t1 = -1`, `t2 = 3`. -/
theorem intersectF_inside_witness :
    (Sphere.intersectF ieee
      ⟨⟨.fin 0, .fin 0, .fin 0⟩,
        ⟨⟨.fin 0, .fin 0, .fin 0⟩, ⟨.fin 1, .fin 1, .fin 1⟩, ⟨.fin 0, .fin 0, .fin 0⟩, .fin 0⟩,
        .fin 2, ⟨.fin 0, .fin 0, .fin 1⟩⟩
      ⟨⟨.fin 0, .fin 0, .fin 0⟩, ⟨.fin 0, .fin 0, .fin 1⟩⟩).1 = none :=
  intersectF_inside ieee
    ⟨⟨.fin 0, .fin 0, .fin 0⟩,
      ⟨⟨.fin 0, .fin 0, .fin 0⟩, ⟨.fin 1, .fin 1, .fin 1⟩, ⟨.fin 0, .fin 0, .fin 0⟩, .fin 0⟩,
      .fin 2, ⟨.fin 0, .fin 0, .fin 1⟩⟩
    ⟨⟨.fin 0, .fin 0, .fin 0⟩, ⟨.fin 0, .fin 0, .fin 1⟩⟩
    (.fin 1) (.fin 0) (.fin 2) (.fin (-1)) (.fin 3)
    (by decide!) (by decide!) (by decide!) (by decide!) (by decide!) (by decide!)
    (by decide!) (by decide!)

/-- C15 as stated fails in float arithmetic.  For the sphere of radius 59.720703125
centered at (-59,9.25,0) and the ray from the world origin along +x, in exact
arithmetic the origin is outside the sphere, `a = -59 < 0` and `d = 9.25 < radius`; the
code computes `b = 59`, so `t2 = a + b = 0` is not negative, and reports a hit at
distance 0. -/
theorem intersect_behind_float_counterexample :
    length Real.sqrt (⟨1, 0, 0⟩ : Vec3 ℝ) = 1 ∧
    length Real.sqrt ((⟨-59, 37 / 4, 0⟩ : Vec3 ℝ).sub ⟨0, 0, 0⟩) > 30577 / 512 ∧
    dot ((⟨-59, 37 / 4, 0⟩ : Vec3 ℝ).sub ⟨0, 0, 0⟩) ⟨1, 0, 0⟩ < 0 ∧
    Real.sqrt ((length Real.sqrt ((⟨-59, 37 / 4, 0⟩ : Vec3 ℝ).sub ⟨0, 0, 0⟩)) ^ 2 -
      (dot ((⟨-59, 37 / 4, 0⟩ : Vec3 ℝ).sub ⟨0, 0, 0⟩) ⟨1, 0, 0⟩) ^ 2) < 30577 / 512 ∧
    rnd32 (30577 / 512) = .fin (30577 / 512) ∧
    ieee.add
      (dotF ieee (vsubF ieee ⟨.fin (-59), .fin (37 / 4), .fin 0⟩ ⟨.fin 0, .fin 0, .fin 0⟩)
        ⟨.fin 1, .fin 0, .fin 0⟩)
      (ieee.sqrtDiffSq (.fin (30577 / 512))
        (ieee.sqrtDiffSq
          (lengthF ieee
            (vsubF ieee ⟨.fin (-59), .fin (37 / 4), .fin 0⟩ ⟨.fin 0, .fin 0, .fin 0⟩))
          (dotF ieee (vsubF ieee ⟨.fin (-59), .fin (37 / 4), .fin 0⟩ ⟨.fin 0, .fin 0, .fin 0⟩)
            ⟨.fin 1, .fin 0, .fin 0⟩))) = .fin 0 ∧
    (Sphere.intersectF ieee
      ⟨⟨.fin 0, .fin 0, .fin 0⟩,
        ⟨⟨.fin 0, .fin 0, .fin 0⟩, ⟨.fin 1, .fin 1, .fin 1⟩, ⟨.fin 0, .fin 0, .fin 0⟩, .fin 0⟩,
        .fin (30577 / 512), ⟨.fin (-59), .fin (37 / 4), .fin 0⟩⟩
      ⟨⟨.fin 0, .fin 0, .fin 0⟩, ⟨.fin 1, .fin 0, .fin 0⟩⟩).1.map FHit.distance =
        some (.fin 0) := by
  have hdot : dot ((⟨-59, 37 / 4, 0⟩ : Vec3 ℝ).sub ⟨0, 0, 0⟩)
      ((⟨-59, 37 / 4, 0⟩ : Vec3 ℝ).sub ⟨0, 0, 0⟩) = 57065 / 16 := by
    simp [dot, Vec3.sub]
    norm_num
  have ha : dot ((⟨-59, 37 / 4, 0⟩ : Vec3 ℝ).sub ⟨0, 0, 0⟩) ⟨1, 0, 0⟩ = -59 := by
    simp [dot, Vec3.sub]
  refine ⟨by simp [length, dot], ?_, ?_, ?_, by decide!, by decide!, by decide!⟩
  · unfold length
    rw [hdot, gt_iff_lt, Real.lt_sqrt (by norm_num)]
    norm_num
  · rw [ha]
    norm_num
  · rw [length_sq, hdot, ha, Real.sqrt_lt' (by norm_num)]
    norm_num

/-- C15, amended: in float arithmetic, when the values the code computes satisfy
`d < radius`, `t1 = a - b < 0` and `t2 = a + b < 0`, the inside test fails, both roots are
replaced by `INFINITY`, and `Sphere.intersect` reports no hit. -/
theorem intersectF_behind (ar : Arith) (s : Sphere Fl) (ray : Ray Fl)
    (a d b t1 t2 : Fl)
    (ha : a = dotF ar (vsubF ar s.center ray.origin) ray.direction)
    (hd : d = ar.sqrtDiffSq (lengthF ar (vsubF ar s.center ray.origin)) a)
    (hdr : d.flt s.radius = true)
    (hb : b = ar.sqrtDiffSq s.radius d)
    (ht1 : t1 = ar.sub a b)
    (ht2 : t2 = ar.add a b)
    (h1 : t1.flt (.fin 0) = true)
    (h2 : t2.flt (.fin 0) = true) :
    (t1.flt (.fin 0) && Fl.flt (.fin 0) t2) = false ∧
      (if Fl.fle (.fin 0) t1 then t1 else Fl.pinf) = Fl.pinf ∧
      (if Fl.fle (.fin 0) t2 then t2 else Fl.pinf) = Fl.pinf ∧
      (s.intersectF ar ray).1 = none := by
  have e0 : (t1.flt (.fin 0) && Fl.flt (.fin 0) t2) = false := by
    rw [Fl.flt_asymm h2, Bool.and_false]
  have e1 : (if Fl.fle (.fin 0) t1 then t1 else Fl.pinf) = Fl.pinf := by
    rw [Fl.fle_false_of_flt h1]
    rfl
  have e2 : (if Fl.fle (.fin 0) t2 then t2 else Fl.pinf) = Fl.pinf := by
    rw [Fl.fle_false_of_flt h2]
    rfl
  refine ⟨e0, e1, e2, ?_⟩
  apply intersectF_of_pinf
  rw [closestTF_two_roots ar _ _ _ a d b t1 t2 ha hd hdr hb ht1 ht2, e0, e1, e2]
  rfl

/-- C15, amended, at the sphere of radius 1 centered at (0,0,-3) and the ray from the
world origin along +z, in IEEE arithmetic: `a = -3`, `d = 0`, `b = 1`, `t1 = -4`,
`t2 = -2`. -/
theorem intersectF_behind_witness :
    (Sphere.intersectF ieee
      ⟨⟨.fin 0, .fin 0, .fin 0⟩,
        ⟨⟨.fin 0, .fin 0, .fin 0⟩, ⟨.fin 1, .fin 1, .fin 1⟩, ⟨.fin 0, .fin 0, .fin 0⟩, .fin 0⟩,
        .fin 1, ⟨.fin 0, .fin 0, .fin (-3)⟩⟩
      ⟨⟨.fin 0, .fin 0, .fin 0⟩, ⟨.fin 0, .fin 0, .fin 1⟩⟩).1 = none :=
  (intersectF_behind ieee
    ⟨⟨.fin 0, .fin 0, .fin 0⟩,
      ⟨⟨.fin 0, .fin 0, .fin 0⟩, ⟨.fin 1, .fin 1, .fin 1⟩, ⟨.fin 0, .fin 0, .fin 0⟩, .fin 0⟩,
      .fin 1, ⟨.fin 0, .fin 0, .fin (-3)⟩⟩
    ⟨⟨.fin 0, .fin 0, .fin 0⟩, ⟨.fin 0, .fin 0, .fin 1⟩⟩
    (.fin (-3)) (.fin 0) (.fin 1) (.fin (-4)) (.fin (-2))
    (by decide!) (by decide!) (by decide!) (by decide!) (by decide!) (by decide!)
    (by decide!) (by decide!)).2.2.2

/-- C14 at its failing input, in IEEE arithmetic: for the sphere centered at (2,0,5) and
a ray with origin (2^26,0,0), `center -= origin` rounds `2 - 2^26` to `-2^26` (the floats
near `2^26` are 4 or 8 apart), and `center += origin` leaves the center at (0,0,5). -/
theorem intersect_moves_center :
    rnd32 67108864 = .fin 67108864 ∧
    (Sphere.intersectF ieee
      ⟨⟨.fin 0, .fin 0, .fin 0⟩,
        ⟨⟨.fin 0, .fin 0, .fin 0⟩, ⟨.fin 1, .fin 1, .fin 1⟩, ⟨.fin 0, .fin 0, .fin 0⟩, .fin 0⟩,
        .fin 3, ⟨.fin 2, .fin 0, .fin 5⟩⟩
      ⟨⟨.fin 67108864, .fin 0, .fin 0⟩, ⟨.fin 0, .fin 0, .fin 1⟩⟩).2.center =
        ⟨.fin 0, .fin 0, .fin 5⟩ ∧
    (Sphere.intersectF ieee
      ⟨⟨.fin 0, .fin 0, .fin 0⟩,
        ⟨⟨.fin 0, .fin 0, .fin 0⟩, ⟨.fin 1, .fin 1, .fin 1⟩, ⟨.fin 0, .fin 0, .fin 0⟩, .fin 0⟩,
        .fin 3, ⟨.fin 2, .fin 0, .fin 5⟩⟩
      ⟨⟨.fin 67108864, .fin 0, .fin 0⟩, ⟨.fin 0, .fin 0, .fin 1⟩⟩).2.center ≠
        ⟨.fin 2, .fin 0, .fin 5⟩ := by
  refine ⟨by decide!, by decide!, by decide!⟩

/-- Function `glm::clamp(x, 0, 1)` on a float returns a value in `[0,1]` for every
number and infinity, and returns NaN for NaN. -/
theorem clampF_bounds (x : Fl) :
    (x ≠ .nan → Fl.fle (.fin 0) (clampF x) = true ∧ Fl.fle (clampF x) (.fin 1) = true) ∧
      (x = .nan → clampF x = .nan) := by
  constructor
  · intro hx
    cases x with
    | fin q =>
      by_cases h0 : q < 0
      · have e : clampF (.fin q) = .fin 0 := by
          norm_num [clampF, Fl.flt, h0]
        rw [e]
        exact ⟨by decide!, by decide!⟩
      · by_cases h1 : (1 : ℚ) < q
        · have e : clampF (.fin q) = .fin 1 := by
            norm_num [clampF, Fl.flt, h0, h1]
          rw [e]
          exact ⟨by decide!, by decide!⟩
        · have e : clampF (.fin q) = .fin q := by
            norm_num [clampF, Fl.flt, h0, h1]
          rw [e]
          simp only [Fl.fle, Fl.flt, Fl.feq, Bool.or_eq_true, decide_eq_true_eq]
          exact ⟨lt_or_eq_of_le (not_lt.mp h0), lt_or_eq_of_le (not_lt.mp h1)⟩
    | pinf => exact ⟨by decide!, by decide!⟩
    | ninf => exact ⟨by decide!, by decide!⟩
    | nan => exact absurd rfl hx
  · intro hx
    rw [hx]
    rfl

/-- C7 at its failing input, in IEEE arithmetic.  With `material.ambient = 2^127`,
`ambient_light = 2`, `material.diffuse = 2`, unit normal (0,0,1), unit view direction
(1,0,0) and one light straight above the point with color `-2^127` (all of them
floats), the ambient term overflows to `+inf`, the diffuse term to `-inf`, their sum is
NaN, and `glm::clamp` returns NaN in every channel, which is not in `[0,1]`.
`glm::pow` is not called (`cosAlpha = 0`). -/
theorem PhongModel_nan_channel :
    rnd32 (2 ^ 127) = .fin (2 ^ 127) ∧
    PhongModelF ieee (fun _ _ => Fl.nan)
      [⟨⟨.fin 0, .fin 0, .fin 1⟩, ⟨.fin (-(2 ^ 127)), .fin (-(2 ^ 127)), .fin (-(2 ^ 127))⟩⟩]
      ⟨.fin 2, .fin 2, .fin 2⟩ ⟨.fin 0, .fin 0, .fin 0⟩ ⟨.fin 0, .fin 0, .fin 1⟩
      ⟨.fin 1, .fin 0, .fin 0⟩
      ⟨⟨.fin (2 ^ 127), .fin (2 ^ 127), .fin (2 ^ 127)⟩, ⟨.fin 2, .fin 2, .fin 2⟩,
        ⟨.fin 0, .fin 0, .fin 0⟩, .fin 0⟩ = ⟨.nan, .nan, .nan⟩ ∧
    Fl.fle (.fin 0) .nan = false ∧ Fl.fle .nan (.fin 1) = false := by
  refine ⟨by decide!, by decide!, by decide!, by decide!⟩

/-- C20 as stated fails in float arithmetic.  With three lights straight above the point,
of colors `1/2`, `2^-25` and `2^-25`, unit normal (0,0,1), diffuse 1 and no ambient
or specular term, the list in this order gives the color `1/2` (`1/2 + 2^-25` rounds
to `1/2` twice) and the list with the light of color `1/2` last gives `1/2 + 2^-24`. -/
theorem PhongModel_order_float_counterexample :
    List.Perm
      [(⟨⟨.fin 0, .fin 0, .fin 1⟩, ⟨.fin (1 / 2), .fin (1 / 2), .fin (1 / 2)⟩⟩ : Light Fl),
        ⟨⟨.fin 0, .fin 0, .fin 1⟩,
          ⟨.fin (1 / 33554432), .fin (1 / 33554432), .fin (1 / 33554432)⟩⟩,
        ⟨⟨.fin 0, .fin 0, .fin 1⟩,
          ⟨.fin (1 / 33554432), .fin (1 / 33554432), .fin (1 / 33554432)⟩⟩]
      [⟨⟨.fin 0, .fin 0, .fin 1⟩,
          ⟨.fin (1 / 33554432), .fin (1 / 33554432), .fin (1 / 33554432)⟩⟩,
        ⟨⟨.fin 0, .fin 0, .fin 1⟩,
          ⟨.fin (1 / 33554432), .fin (1 / 33554432), .fin (1 / 33554432)⟩⟩,
        ⟨⟨.fin 0, .fin 0, .fin 1⟩, ⟨.fin (1 / 2), .fin (1 / 2), .fin (1 / 2)⟩⟩] ∧
    PhongModelF ieee (fun _ _ => Fl.nan)
      [⟨⟨.fin 0, .fin 0, .fin 1⟩, ⟨.fin (1 / 2), .fin (1 / 2), .fin (1 / 2)⟩⟩,
        ⟨⟨.fin 0, .fin 0, .fin 1⟩,
          ⟨.fin (1 / 33554432), .fin (1 / 33554432), .fin (1 / 33554432)⟩⟩,
        ⟨⟨.fin 0, .fin 0, .fin 1⟩,
          ⟨.fin (1 / 33554432), .fin (1 / 33554432), .fin (1 / 33554432)⟩⟩]
      ⟨.fin 1, .fin 1, .fin 1⟩ ⟨.fin 0, .fin 0, .fin 0⟩ ⟨.fin 0, .fin 0, .fin 1⟩
      ⟨.fin 1, .fin 0, .fin 0⟩
      ⟨⟨.fin 0, .fin 0, .fin 0⟩, ⟨.fin 1, .fin 1, .fin 1⟩, ⟨.fin 0, .fin 0, .fin 0⟩, .fin 0⟩ =
      ⟨.fin (1 / 2), .fin (1 / 2), .fin (1 / 2)⟩ ∧
    PhongModelF ieee (fun _ _ => Fl.nan)
      [⟨⟨.fin 0, .fin 0, .fin 1⟩,
          ⟨.fin (1 / 33554432), .fin (1 / 33554432), .fin (1 / 33554432)⟩⟩,
        ⟨⟨.fin 0, .fin 0, .fin 1⟩,
          ⟨.fin (1 / 33554432), .fin (1 / 33554432), .fin (1 / 33554432)⟩⟩,
        ⟨⟨.fin 0, .fin 0, .fin 1⟩, ⟨.fin (1 / 2), .fin (1 / 2), .fin (1 / 2)⟩⟩]
      ⟨.fin 1, .fin 1, .fin 1⟩ ⟨.fin 0, .fin 0, .fin 0⟩ ⟨.fin 0, .fin 0, .fin 1⟩
      ⟨.fin 1, .fin 0, .fin 0⟩
      ⟨⟨.fin 0, .fin 0, .fin 0⟩, ⟨.fin 1, .fin 1, .fin 1⟩, ⟨.fin 0, .fin 0, .fin 0⟩, .fin 0⟩ =
      ⟨.fin (1 / 2 + 1 / 16777216), .fin (1 / 2 + 1 / 16777216),
        .fin (1 / 2 + 1 / 16777216)⟩ := by
  refine ⟨?_, by decide!, by decide!⟩
  exact @List.perm_append_comm _ [_] [_, _]

theorem vaddF_exactAdd_right_comm (c x y : Vec3 Fl) :
    vaddF exactAdd (vaddF exactAdd c x) y = vaddF exactAdd (vaddF exactAdd c y) x := by
  have h : ∀ a b d : Fl,
      exactAdd.add (exactAdd.add a b) d = exactAdd.add (exactAdd.add a d) b := by
    intro a b d
    cases a <;> cases b <;> cases d <;> simp [exactAdd, addR, add_right_comm]
  simp only [vaddF]
  rw [h c.x, h c.y, h c.z]

/-- One loop iteration of `PhongModel` adds the vectors of `lightTermsF` to `color`. -/
theorem lightStepF_foldl (ar : Arith) (powf : Fl → Fl → Fl)
    (point normal view_direction : Vec3 Fl) (material : Material Fl) (color : Vec3 Fl)
    (light : Light Fl) :
    lightStepF ar powf point normal view_direction material color light =
      (lightTermsF ar powf point normal view_direction material light).foldl (vaddF ar)
        color := by
  simp only [lightStepF, lightTermsF]
  split_ifs <;> rfl

/-- The loop of `PhongModel` adds the terms of all lights, in list order. -/
theorem foldl_lightStepF (ar : Arith) (powf : Fl → Fl → Fl)
    (point normal view_direction : Vec3 Fl) (material : Material Fl)
    (lights : List (Light Fl)) (color : Vec3 Fl) :
    lights.foldl (lightStepF ar powf point normal view_direction material) color =
      (lights.flatMap (lightTermsF ar powf point normal view_direction material)).foldl
        (vaddF ar) color := by
  induction lights generalizing color with
  | nil => rfl
  | cons l ls ih =>
    rw [List.foldl_cons, List.flatMap_cons, List.foldl_append, ih, lightStepF_foldl]

/-- C20, amended: in float arithmetic, `PhongModel` returns the same color for two light
lists that are permutations of each other whenever, for each of the two lists, the
running sum `color += ...` over the terms of its lights is computed without rounding
error: it equals the sum of the same terms, in the same order, under exact addition. -/
theorem PhongModelF_perm (ar : Arith) (powf : Fl → Fl → Fl)
    (lights1 lights2 : List (Light Fl))
    (ambient_light point normal view_direction : Vec3 Fl) (material : Material Fl)
    (hperm : lights1.Perm lights2)
    (hexact1 :
      (lights1.flatMap (lightTermsF ar powf point normal view_direction material)).foldl
          (vaddF ar)
          (vaddF ar ⟨.fin 0, .fin 0, .fin 0⟩ (vmulF ar material.ambient ambient_light)) =
        (lights1.flatMap (lightTermsF ar powf point normal view_direction material)).foldl
          (vaddF exactAdd)
          (vaddF ar ⟨.fin 0, .fin 0, .fin 0⟩ (vmulF ar material.ambient ambient_light)))
    (hexact2 :
      (lights2.flatMap (lightTermsF ar powf point normal view_direction material)).foldl
          (vaddF ar)
          (vaddF ar ⟨.fin 0, .fin 0, .fin 0⟩ (vmulF ar material.ambient ambient_light)) =
        (lights2.flatMap (lightTermsF ar powf point normal view_direction material)).foldl
          (vaddF exactAdd)
          (vaddF ar ⟨.fin 0, .fin 0, .fin 0⟩ (vmulF ar material.ambient ambient_light))) :
    PhongModelF ar powf lights1 ambient_light point normal view_direction material =
      PhongModelF ar powf lights2 ambient_light point normal view_direction material := by
  have hp := (List.Perm.flatMap_right
    (lightTermsF ar powf point normal view_direction material) hperm).foldl_eq'
    (fun x _ y _ z => vaddF_exactAdd_right_comm z x y)
    (vaddF ar ⟨.fin 0, .fin 0, .fin 0⟩ (vmulF ar material.ambient ambient_light))
  unfold PhongModelF
  simp only []
  rw [foldl_lightStepF, foldl_lightStepF, hexact1, hexact2, hp]

/-- C20, amended, in IEEE arithmetic: three lights straight above the point, of colors
`1/2`, `1/4`, `1/8`, with unit normal and view direction (0,0,1), `diffuse = 1/2`,
`specular = 1/4`, `shininess = 0` (`glm::pow(x, 0)` is 1).  Each light adds a diffuse
and a specular term, all sums are exact, and both orders give `21/32`. -/
theorem PhongModelF_perm_witness :
    PhongModelF ieee (fun _ _ => Fl.fin 1)
      [(⟨⟨.fin 0, .fin 0, .fin 1⟩, ⟨.fin (1 / 2), .fin (1 / 2), .fin (1 / 2)⟩⟩ : Light Fl),
        ⟨⟨.fin 0, .fin 0, .fin 1⟩, ⟨.fin (1 / 4), .fin (1 / 4), .fin (1 / 4)⟩⟩,
        ⟨⟨.fin 0, .fin 0, .fin 1⟩, ⟨.fin (1 / 8), .fin (1 / 8), .fin (1 / 8)⟩⟩]
      ⟨.fin 1, .fin 1, .fin 1⟩ ⟨.fin 0, .fin 0, .fin 0⟩ ⟨.fin 0, .fin 0, .fin 1⟩
      ⟨.fin 0, .fin 0, .fin 1⟩
      ⟨⟨.fin 0, .fin 0, .fin 0⟩, ⟨.fin (1 / 2), .fin (1 / 2), .fin (1 / 2)⟩,
        ⟨.fin (1 / 4), .fin (1 / 4), .fin (1 / 4)⟩, .fin 0⟩ =
    PhongModelF ieee (fun _ _ => Fl.fin 1)
      [(⟨⟨.fin 0, .fin 0, .fin 1⟩, ⟨.fin (1 / 8), .fin (1 / 8), .fin (1 / 8)⟩⟩ : Light Fl),
        ⟨⟨.fin 0, .fin 0, .fin 1⟩, ⟨.fin (1 / 2), .fin (1 / 2), .fin (1 / 2)⟩⟩,
        ⟨⟨.fin 0, .fin 0, .fin 1⟩, ⟨.fin (1 / 4), .fin (1 / 4), .fin (1 / 4)⟩⟩]
      ⟨.fin 1, .fin 1, .fin 1⟩ ⟨.fin 0, .fin 0, .fin 0⟩ ⟨.fin 0, .fin 0, .fin 1⟩
      ⟨.fin 0, .fin 0, .fin 1⟩
      ⟨⟨.fin 0, .fin 0, .fin 0⟩, ⟨.fin (1 / 2), .fin (1 / 2), .fin (1 / 2)⟩,
        ⟨.fin (1 / 4), .fin (1 / 4), .fin (1 / 4)⟩, .fin 0⟩ ∧
    PhongModelF ieee (fun _ _ => Fl.fin 1)
      [(⟨⟨.fin 0, .fin 0, .fin 1⟩, ⟨.fin (1 / 2), .fin (1 / 2), .fin (1 / 2)⟩⟩ : Light Fl),
        ⟨⟨.fin 0, .fin 0, .fin 1⟩, ⟨.fin (1 / 4), .fin (1 / 4), .fin (1 / 4)⟩⟩,
        ⟨⟨.fin 0, .fin 0, .fin 1⟩, ⟨.fin (1 / 8), .fin (1 / 8), .fin (1 / 8)⟩⟩]
      ⟨.fin 1, .fin 1, .fin 1⟩ ⟨.fin 0, .fin 0, .fin 0⟩ ⟨.fin 0, .fin 0, .fin 1⟩
      ⟨.fin 0, .fin 0, .fin 1⟩
      ⟨⟨.fin 0, .fin 0, .fin 0⟩, ⟨.fin (1 / 2), .fin (1 / 2), .fin (1 / 2)⟩,
        ⟨.fin (1 / 4), .fin (1 / 4), .fin (1 / 4)⟩, .fin 0⟩ =
    ⟨.fin (21 / 32), .fin (21 / 32), .fin (21 / 32)⟩ :=
  ⟨PhongModelF_perm ieee (fun _ _ => Fl.fin 1)
    [(⟨⟨.fin 0, .fin 0, .fin 1⟩, ⟨.fin (1 / 2), .fin (1 / 2), .fin (1 / 2)⟩⟩ : Light Fl),
        ⟨⟨.fin 0, .fin 0, .fin 1⟩, ⟨.fin (1 / 4), .fin (1 / 4), .fin (1 / 4)⟩⟩,
        ⟨⟨.fin 0, .fin 0, .fin 1⟩, ⟨.fin (1 / 8), .fin (1 / 8), .fin (1 / 8)⟩⟩]
    [(⟨⟨.fin 0, .fin 0, .fin 1⟩, ⟨.fin (1 / 8), .fin (1 / 8), .fin (1 / 8)⟩⟩ : Light Fl),
        ⟨⟨.fin 0, .fin 0, .fin 1⟩, ⟨.fin (1 / 2), .fin (1 / 2), .fin (1 / 2)⟩⟩,
        ⟨⟨.fin 0, .fin 0, .fin 1⟩, ⟨.fin (1 / 4), .fin (1 / 4), .fin (1 / 4)⟩⟩]
    ⟨.fin 1, .fin 1, .fin 1⟩ ⟨.fin 0, .fin 0, .fin 0⟩ ⟨.fin 0, .fin 0, .fin 1⟩
      ⟨.fin 0, .fin 0, .fin 1⟩
      ⟨⟨.fin 0, .fin 0, .fin 0⟩, ⟨.fin (1 / 2), .fin (1 / 2), .fin (1 / 2)⟩,
        ⟨.fin (1 / 4), .fin (1 / 4), .fin (1 / 4)⟩, .fin 0⟩
    (@List.perm_append_comm _ [_, _] [_]) (by decide!) (by decide!), by decide!⟩

/-- C13 as stated fails in float arithmetic.  For `width = 3` and `fov = 90`,
`PIXEL_SIZE` is the float nearest to `2 / 3`; pixel column 0 gets
`x = -0.66666663` and its mirror image, column 2, gets `x = 0.66666675`, which is not
`0.66666663`. -/
theorem pixelDirection_mirror_float_counterexample :
    (0 : ℤ) < 3 ∧ (0 : ℤ) ≤ 0 ∧ (0 : ℤ) < 3 ∧
    rnd32 (2 / 3) = .fin (11184811 / 16777216) ∧
    pixelDirectionF ieee (.fin (11184811 / 16777216)) 3 3 0 0 =
      ⟨.fin (-5592405 / 8388608), .fin (5592405 / 8388608), .fin 1⟩ ∧
    pixelDirectionF ieee (.fin (11184811 / 16777216)) 3 3 (3 - 1 - 0) 0 =
      ⟨.fin (2796203 / 4194304), .fin (5592405 / 8388608), .fin 1⟩ ∧
    (2796203 / 4194304 : ℚ) ≠ 5592405 / 8388608 := by
  refine ⟨by decide, by decide, by decide, by decide!, by decide!, by decide!, by norm_num⟩

/-- C13, amended: in float arithmetic, for every `PIXEL_SIZE = P`, width, height and
pixel `(w, h)` for which the `x` of columns `w` and `width-1-w` and the `y` of rows `h`
and `height-1-h` are computed without rounding error (they are
`-(width*P)/2 + (w+1/2)*P` and `(height*P)/2 - (h+1/2)*P`), the vector of pixel
`(width-1-w, h)` is `(-x, y, 1)` and that of pixel `(w, height-1-h)` is `(x, -y, 1)`; and
in IEEE arithmetic, for `width = 2`, `height = 2` and `fov = 90` (`PIXEL_SIZE = 1`), the
vectors of the four pixels before normalization are (-1/2,1/2,1), (1/2,1/2,1),
(-1/2,-1/2,1), (1/2,-1/2,1). -/
theorem pixelDirectionF_mirror (ar : Arith) (P : ℚ) (width height w h : ℤ)
    (hx : pixelXF ar (.fin P) width w = .fin (-(width * P) / 2 + (w + 1 / 2) * P))
    (hx' : pixelXF ar (.fin P) width (width - 1 - w) =
      .fin (-(width * P) / 2 + (((width - 1 - w : ℤ) : ℚ) + 1 / 2) * P))
    (hy : pixelYF ar (.fin P) height h = .fin ((height * P) / 2 - (h + 1 / 2) * P))
    (hy' : pixelYF ar (.fin P) height (height - 1 - h) =
      .fin ((height * P) / 2 - (((height - 1 - h : ℤ) : ℚ) + 1 / 2) * P)) :
    pixelDirectionF ar (.fin P) width height (width - 1 - w) h =
        ⟨(pixelDirectionF ar (.fin P) width height w h).x.neg,
          (pixelDirectionF ar (.fin P) width height w h).y, .fin 1⟩ ∧
      pixelDirectionF ar (.fin P) width height w (height - 1 - h) =
        ⟨(pixelDirectionF ar (.fin P) width height w h).x,
          (pixelDirectionF ar (.fin P) width height w h).y.neg, .fin 1⟩ ∧
      pixelDirectionF ieee (.fin 1) 2 2 0 0 = ⟨.fin (-1 / 2), .fin (1 / 2), .fin 1⟩ ∧
      pixelDirectionF ieee (.fin 1) 2 2 1 0 = ⟨.fin (1 / 2), .fin (1 / 2), .fin 1⟩ ∧
      pixelDirectionF ieee (.fin 1) 2 2 0 1 = ⟨.fin (-1 / 2), .fin (-1 / 2), .fin 1⟩ ∧
      pixelDirectionF ieee (.fin 1) 2 2 1 1 = ⟨.fin (1 / 2), .fin (-1 / 2), .fin 1⟩ := by
  refine ⟨?_, ?_, by decide!, by decide!, by decide!, by decide!⟩
  · simp only [pixelDirectionF, hx, hx', Fl.neg, Vec3.mk.injEq, Fl.fin.injEq, and_true]
    push_cast
    ring
  · simp only [pixelDirectionF, hy, hy', Fl.neg, Vec3.mk.injEq, Fl.fin.injEq, and_true,
      true_and]
    push_cast
    ring

/-- C13, amended, in IEEE arithmetic at pixel (100, 200) of the 1024 by 768 image of
`main` with `fov = 90` (`PIXEL_SIZE = 1/512`): `x = -823/1024`, `y = 367/1024`, and the
mirror pixels (923, 200) and (100, 567) have the vectors `(823/1024, 367/1024, 1)` and
`(-823/1024, -367/1024, 1)`. -/
theorem pixelDirectionF_mirror_witness :
    pixelDirectionF ieee (.fin (1 / 512)) 1024 768 100 200 =
        ⟨.fin (-823 / 1024), .fin (367 / 1024), .fin 1⟩ ∧
      pixelDirectionF ieee (.fin (1 / 512)) 1024 768 (1024 - 1 - 100) 200 =
        ⟨.fin (823 / 1024), .fin (367 / 1024), .fin 1⟩ ∧
      pixelDirectionF ieee (.fin (1 / 512)) 1024 768 100 (768 - 1 - 200) =
        ⟨.fin (-823 / 1024), .fin (-367 / 1024), .fin 1⟩ := by
  have e : pixelDirectionF ieee (.fin (1 / 512)) 1024 768 100 200 =
      ⟨.fin (-823 / 1024), .fin (367 / 1024), .fin 1⟩ := by decide!
  obtain ⟨h1, h2, -⟩ := pixelDirectionF_mirror ieee (1 / 512) 1024 768 100 200
    (by decide!) (by decide!) (by decide!) (by decide!)
  rw [e] at h1 h2
  refine ⟨e, ?_, ?_⟩
  · rw [h1]
    simp only [Fl.neg, Vec3.mk.injEq, Fl.fin.injEq, and_true, true_and]
    norm_num
  · rw [h2]
    simp only [Fl.neg, Vec3.mk.injEq, Fl.fin.injEq, and_true, true_and]
    norm_num

end RayTracer
